import Mathlib

/-!
Verification of the data-normalization and aggregation helpers of the
india-generation-dashboard repository (file `src/unnamed/part_000`, a React
component).  The pure helper functions of that file are embedded shallowly:

* JS `number` values are modelled as rationals (`ℚ`).  All numbers reaching
  the helpers below are finite doubles in the running program; `NaN` and the
  infinities are modelled by `Option` at the few places the code can produce
  them (`Number(...)` coercion).
* JS strings are modelled as Lean `String`; the regular-expression shape
  tests of the source are modelled as structural matches on the character
  list of the (trimmed) string.
* `Date.UTC` / `getUTC*` round-trip validation is modelled by the
  ECMAScript `MakeDay` normalization (two-digit years shifted to 19xx,
  month overflow folded into the year, day overflow folded into the month),
  specialised to the day range 0..99 that the parsers can produce.
-/

/-- JS `Math.round`: nearest integer, halves toward positive infinity. -/
def jsRound (q : ℚ) : ℤ := ⌊q + 1 / 2⌋

/-- Source `round2`: `Math.round(n * 100) / 100`. -/
def round2 (n : ℚ) : ℚ := (jsRound (n * 100) : ℚ) / 100

/-- Source `safeNum`: `Number(x)` guarded by `Number.isFinite`, defaulting to 0.
In this model the helper is applied to values that are already finite
numbers, on which the coercion is the identity. -/
def safeNum (x : ℚ) : ℚ := x

/-- The eight generation sources (source constant `SOURCES`, type `SourceKey`). -/
inductive SourceKey : Type
  | coal
  | oilGas
  | nuclear
  | hydro
  | solar
  | wind
  | smallHydro
  | bioPower
  deriving DecidableEq

/-- Source `SOURCES`: the fixed, ordered list of the eight source keys. -/
def SOURCES : List SourceKey :=
  [.coal, .oilGas, .nuclear, .hydro, .solar, .wind, .smallHydro, .bioPower]

/-- Source `sumSources`: fold of `acc + safeNum (obj k)` over the given keys. -/
def sumSources (obj : SourceKey → ℚ) (keys : List SourceKey) : ℚ :=
  keys.foldl (fun acc k => acc + safeNum (obj k)) 0

/-- Source `ratedBySource`: per source, `round2(safeNum(installed[s]) * (safeNum(plf[s]) / 100))`. -/
def ratedBySource (installed plf : SourceKey → ℚ) : SourceKey → ℚ :=
  fun s => round2 (safeNum (installed s) * (safeNum (plf s) / 100))

/-- Source `ratedTotal`: `sumSources(ratedBySource, SOURCES)`. -/
def ratedTotal (installed plf : SourceKey → ℚ) : ℚ :=
  sumSources (ratedBySource installed plf) SOURCES

/-! ### Character and string primitives

JS strings are processed through their character lists.  All helpers below
are structurally recursive so that concrete runs reduce in the kernel. -/

/-- A decimal digit character (regex `\d`). -/
def isDig (c : Char) : Bool := decide (48 ≤ c.toNat ∧ c.toNat ≤ 57)

/-- Numeric value of a digit character. -/
def digToNat (c : Char) : Nat := c.toNat - 48

/-- Value of a digit string, most significant digit first (JS `Number` on
an all-digit string). -/
def digitsToNat (l : List Char) : Nat := l.foldl (fun a c => 10 * a + digToNat c) 0

/-- The digit character for `n < 10`. -/
def digitChar (n : Nat) : Char := Char.ofNat (48 + n)

/-- Decimal digits of `n`, most significant first; the first argument is
structural fuel (`n` itself suffices, one unit per digit). -/
def natCharsGo : Nat → Nat → List Char
  | 0, n => [digitChar (n % 10)]
  | fuel + 1, n =>
    if n < 10 then [digitChar n]
    else natCharsGo fuel (n / 10) ++ [digitChar (n % 10)]

/-- JS `String(n)` for a natural number: decimal, no leading zeros. -/
def natChars (n : Nat) : List Char := natCharsGo n n

/-- JS `String(n)` for a natural number, as a `String`. -/
def decimalStr (n : Nat) : String := String.mk (natChars n)

/-- JS `String(i)` for an integer. -/
def intStr (i : ℤ) : String :=
  if i < 0 then "-" ++ decimalStr i.natAbs else decimalStr i.natAbs

/-- JS `String(n).padStart(2, "0")`. -/
def pad2 (n : Nat) : String := if n < 10 then "0" ++ decimalStr n else decimalStr n

/-- Four-digit zero padding (as produced by `Date.prototype.toISOString` for
years 0..9999). -/
def pad4 (n : Nat) : String :=
  if n < 10 then "000" ++ decimalStr n
  else if n < 100 then "00" ++ decimalStr n
  else if n < 1000 then "0" ++ decimalStr n
  else decimalStr n

/-- JS whitespace trimmed by `String.prototype.trim` (ASCII part: space,
tab, line feed, carriage return, vertical tab, form feed). -/
def isSpaceChar (c : Char) : Bool :=
  c = ' ' || c = Char.ofNat 9 || c = Char.ofNat 10 || c = Char.ofNat 13 ||
  c = Char.ofNat 11 || c = Char.ofNat 12

/-- JS `trim()` on a character list. -/
def trimChars (l : List Char) : List Char :=
  ((l.dropWhile isSpaceChar).reverse.dropWhile isSpaceChar).reverse

/-- JS `s.trim()`. -/
def trimStr (s : String) : String := String.mk (trimChars s.data)

/-- JS `String.prototype.split(sep)` for a single-character separator:
always returns at least one (possibly empty) piece and keeps empty pieces. -/
def splitOn (sep : Char) : List Char → List (List Char)
  | [] => [[]]
  | c :: cs =>
    if c = sep then [] :: splitOn sep cs
    else
      match splitOn sep cs with
      | [] => [[c]]
      | h :: t => (c :: h) :: t

/-- JS `<=` on strings: lexicographic by code unit. -/
def lexLe : List Char → List Char → Bool
  | [], _ => true
  | _ :: _, [] => false
  | a :: as, b :: bs => if a = b then lexLe as bs else decide (a < b)

/-- JS `a <= b` on strings. -/
def strLe (a b : String) : Bool := lexLe a.data b.data

/-- Does `hay` start with `needle`? -/
def startsWithChars : List Char → List Char → Bool
  | _, [] => true
  | [], _ :: _ => false
  | a :: as, b :: bs => a = b && startsWithChars as bs

/-- JS `String.prototype.includes` (substring test). -/
def containsChars : List Char → List Char → Bool
  | [], needle => needle.isEmpty
  | a :: as, needle => startsWithChars (a :: as) needle || containsChars as needle

/-! ### Month keys (`normalizeMonth`, `compareMonthKey`, `clampMonthKeyToOptions`) -/

/-- Regex `^(\d{1,2})\/(\d{4})$` branch of `normalizeMonth`:
`String(Number(m1[1])).padStart(2, "0")` then the year. -/
def monthShape1 : List Char → Option String
  | [a, '/', y1, y2, y3, y4] =>
    if isDig a && isDig y1 && isDig y2 && isDig y3 && isDig y4 then
      some (pad2 (digitsToNat [a]) ++ "/" ++ String.mk [y1, y2, y3, y4])
    else none
  | [a, b, '/', y1, y2, y3, y4] =>
    if isDig a && isDig b && isDig y1 && isDig y2 && isDig y3 && isDig y4 then
      some (pad2 (digitsToNat [a, b]) ++ "/" ++ String.mk [y1, y2, y3, y4])
    else none
  | _ => none

/-- Regex `^(\d{2})X(\d{2})X(\d{4})$` (`X` the separator) branch of
`normalizeMonth`: keeps the raw month and year digits. -/
def monthShapeDMY (sep : Char) : List Char → Option String
  | [d1, d2, s1, m1, m2, s2, y1, y2, y3, y4] =>
    if s1 = sep && s2 = sep && isDig d1 && isDig d2 && isDig m1 && isDig m2 &&
        isDig y1 && isDig y2 && isDig y3 && isDig y4 then
      some (String.mk [m1, m2] ++ "/" ++ String.mk [y1, y2, y3, y4])
    else none
  | _ => none

/-- Regex `^(\d{4})-(\d{2})-(\d{2})$` branch of `normalizeMonth`. -/
def monthShapeISO : List Char → Option String
  | [y1, y2, y3, y4, '-', m1, m2, '-', d1, d2] =>
    if isDig y1 && isDig y2 && isDig y3 && isDig y4 && isDig m1 && isDig m2 &&
        isDig d1 && isDig d2 then
      some (String.mk [m1, m2] ++ "/" ++ String.mk [y1, y2, y3, y4])
    else none
  | _ => none

/-- Source `normalizeMonth`: trim, then try the five accepted shapes in the
order of the source (`M/YYYY` or `MM/YYYY`, `DD/MM/YYYY`, `DD-MM-YYYY`,
`YYYY-MM-DD`), returning `null` when none matches. -/
def normalizeMonth (raw : String) : Option String :=
  let t := trimChars raw.data
  if t = [] then none
  else
    match monthShape1 t with
    | some r => some r
    | none =>
      match monthShapeDMY '/' t with
      | some r => some r
      | none =>
        match monthShapeDMY '-' t with
        | some r => some r
        | none => monthShapeISO t

/-- Shape of a canonical month key `MM/YYYY`: two digits, a slash, four
digits (without any constraint on the month value). -/
def isMonthKeyShape (r : String) : Bool :=
  match r.data with
  | [a, b, '/', c, d, e, f] =>
    isDig a && isDig b && isDig c && isDig d && isDig e && isDig f
  | _ => false

/-- The numeric month component of an `MM/YYYY` string (its first two
characters read as a number). -/
def monthNumOfKey (r : String) : Nat := digitsToNat (r.data.take 2)

/-- Parse both components of a month key the way `compareMonthKey` reads
them: split on `/`, `Number` on the first two pieces.  `none` models a
`NaN` component (piece missing, empty, or not all digits). -/
def monthKeyNums (s : String) : Option (ℤ × ℤ) :=
  match splitOn '/' s.data with
  | m :: y :: _ =>
    if m ≠ [] && m.all isDig && y ≠ [] && y.all isDig then
      some ((digitsToNat m : ℤ), (digitsToNat y : ℤ))
    else none
  | _ => none

/-- Components used by `compareMonthKey`.  A `NaN` component makes the JS
comparator inconsistent and the resulting `Array.prototype.sort` order
implementation-defined; the model completes that case consistently by
reading a `NaN` component as `-1`.  Every theorem about the comparator
restricts to numeric month keys, on which the completion is irrelevant. -/
def monthKeyNumsD (s : String) : ℤ × ℤ := (monthKeyNums s).getD (-1, -1)

/-- Source `compareMonthKey`: year difference first, then month difference. -/
def compareMonthKey (a b : String) : ℤ :=
  if (monthKeyNumsD a).2 ≠ (monthKeyNumsD b).2 then (monthKeyNumsD a).2 - (monthKeyNumsD b).2
  else (monthKeyNumsD a).1 - (monthKeyNumsD b).1

/-- Source `clampMonthKeyToOptions`: exact hit wins; otherwise the latest
option at or before the target in the ascending sort; otherwise the
earliest option.  `Array.prototype.sort` with a consistent comparator is a
stable sort, modelled by `List.mergeSort`. -/
def clampMonthKeyToOptions (target : String) (options : List String) : String :=
  if options.isEmpty then target
  else if options.contains target then target
  else
    let sorted := options.mergeSort (fun a b => compareMonthKey a b ≤ 0)
    match sorted.reverse.find? (fun o => compareMonthKey o target ≤ 0) with
    | some o => o
    | none => sorted.headD target

/-! ### Calendar dates and the `Date.UTC` round-trip check -/

/-- Gregorian leap year (as used by ECMAScript `Date`). -/
def isLeap (y : ℤ) : Bool := y % 4 = 0 && (y % 100 ≠ 0 || y % 400 = 0)

/-- Days in month `m` (1..12) of year `y`. -/
def daysInMonth (y : ℤ) (m : Nat) : Nat :=
  if m = 2 then (if isLeap y then 29 else 28)
  else if m = 4 || m = 6 || m = 9 || m = 11 then 30 else 31

/-- ECMAScript `Date.UTC` year rewrite: integer years 0..99 denote 1900..1999. -/
def jsYearAdj (y : ℤ) : ℤ := if 0 ≤ y ∧ y ≤ 99 then 1900 + y else y

/-- Fold an excessive day-of-month into later months, one month per fuel
unit (`fuel = d` always suffices since every month has at least 28 days).
This is the day part of ECMAScript `MakeDay` for a nonnegative day count,
starting from a real month `m ∈ [1,12]`. -/
def normDayGo : Nat → ℤ → Nat → Nat → ℤ × Nat × Nat
  | 0, y, m, d => (y, m, d)
  | fuel + 1, y, m, d =>
    if daysInMonth y m < d then
      if m = 12 then normDayGo fuel (y + 1) 1 (d - 31)
      else normDayGo fuel y (m + 1) (d - daysInMonth y m)
    else (y, m, d)

/-- `Date.UTC(yyyy, mm - 1, dd)` followed by reading back the UTC year,
month (1-based here) and day: the ECMAScript `MakeDay` normalization for
the argument ranges the parsers produce (`mm, dd ≤ 99`): two-digit years
shift to 19xx, month overflow/underflow folds into the year (floor
division), day `0` is the last day of the previous month and larger days
fold into later months. -/
def utcNormalize (yyyy mm dd : Nat) : ℤ × Nat × Nat :=
  let y0 : ℤ := jsYearAdj yyyy
  let m0 : ℤ := (mm : ℤ) - 1
  let y1 : ℤ := y0 + m0 / 12
  let m1 : Nat := (m0 % 12).toNat + 1
  if dd = 0 then
    if m1 = 1 then (y1 - 1, 12, 31) else (y1, m1 - 1, daysInMonth y1 (m1 - 1))
  else normDayGo dd y1 m1 dd

/-- The validation of `parseInputDate`: build the UTC date and require
`getUTCFullYear/getUTCMonth/getUTCDate` to read back exactly the parsed
components. -/
def utcRoundtripOk (yyyy mm dd : Nat) : Bool :=
  let r := utcNormalize yyyy mm dd
  decide (r.1 = (yyyy : ℤ) ∧ ((r.2.1 : ℤ) - 1 = (mm : ℤ) - 1) ∧ r.2.2 = dd)

/-- Regex `^\d{2}X\d{2}X\d{4}$` with separator `X`, extracting
`(dd, mm, yyyy)`. -/
def shapeDMY (sep : Char) : List Char → Option (Nat × Nat × Nat)
  | [d1, d2, s1, m1, m2, s2, y1, y2, y3, y4] =>
    if s1 = sep && s2 = sep && isDig d1 && isDig d2 && isDig m1 && isDig m2 &&
        isDig y1 && isDig y2 && isDig y3 && isDig y4 then
      some (digitsToNat [d1, d2], digitsToNat [m1, m2], digitsToNat [y1, y2, y3, y4])
    else none
  | _ => none

/-- Regex `^\d{4}-\d{2}-\d{2}$`, extracting `(yyyy, mm, dd)`. -/
def shapeISO : List Char → Option (Nat × Nat × Nat)
  | [y1, y2, y3, y4, '-', m1, m2, '-', d1, d2] =>
    if isDig y1 && isDig y2 && isDig y3 && isDig y4 && isDig m1 && isDig m2 &&
        isDig d1 && isDig d2 then
      some (digitsToNat [y1, y2, y3, y4], digitsToNat [m1, m2], digitsToNat [d1, d2])
    else none
  | _ => none

/-- A real proleptic-Gregorian calendar date (the notion "denotes a real
calendar date" of the specification). -/
def validCivil (y : ℤ) (m d : Nat) : Bool :=
  decide (1 ≤ m ∧ m ≤ 12 ∧ 1 ≤ d ∧ d ≤ daysInMonth y m)

/-- Source `parseISOKey`: shape test `^\d{4}-\d{2}-\d{2}$`, then
`new Date(s + "T00:00:00Z")` must not be `NaN`.  ECMAScript rejects
out-of-range months and days of the ISO date-time format, so validity is
exactly `validCivil`. -/
def parseISOKey (s : String) : Option String :=
  match shapeISO s.data with
  | some (y, m, d) => if validCivil (y : ℤ) m d then some s else none
  | none => none

/-- The ISO string `parseInputDate` builds on success:
`` `${yyyy}-${pad2 mm}-${pad2 dd}` `` (note: the year is not zero-padded). -/
def isoOf (yyyy mm dd : Nat) : String :=
  decimalStr yyyy ++ "-" ++ pad2 mm ++ "-" ++ pad2 dd

/-- Source `parseInputDate`: `DD/MM/YYYY`, then `DD-MM-YYYY` (each gated by
the `Date.UTC` round-trip check), then `YYYY-MM-DD` via `parseISOKey`;
anything else is `null`. -/
def parseInputDate (s : String) : Option String :=
  let t := trimChars s.data
  match shapeDMY '/' t with
  | some (dd, mm, yyyy) =>
    if utcRoundtripOk yyyy mm dd then some (isoOf yyyy mm dd) else none
  | none =>
    match shapeDMY '-' t with
    | some (dd, mm, yyyy) =>
      if utcRoundtripOk yyyy mm dd then some (isoOf yyyy mm dd) else none
    | none =>
      match shapeISO t with
      | some _ => parseISOKey (String.mk t)
      | none => none

/-- Source `formatDDMMYYYY`: `YYYY-MM-DD` to `DD-MM-YYYY`, em-dash
placeholder on any other input. -/
def formatDDMMYYYY (iso : String) : String :=
  match iso.data with
  | [y1, y2, y3, y4, '-', m1, m2, '-', d1, d2] =>
    if isDig y1 && isDig y2 && isDig y3 && isDig y4 && isDig m1 && isDig m2 &&
        isDig d1 && isDig d2 then
      String.mk [d1, d2] ++ "-" ++ String.mk [m1, m2] ++ "-" ++ String.mk [y1, y2, y3, y4]
    else "—"
  | _ => "—"

/-- Source `formatDDMMYYYYForCSV`: `YYYY-MM-DD` to `DD/MM/YYYY`, em-dash
placeholder on any other input. -/
def formatDDMMYYYYForCSV (iso : String) : String :=
  match iso.data with
  | [y1, y2, y3, y4, '-', m1, m2, '-', d1, d2] =>
    if isDig y1 && isDig y2 && isDig y3 && isDig y4 && isDig m1 && isDig m2 &&
        isDig d1 && isDig d2 then
      String.mk [d1, d2] ++ "/" ++ String.mk [m1, m2] ++ "/" ++ String.mk [y1, y2, y3, y4]
    else "—"
  | _ => "—"

/-- Successor of a real calendar date. -/
def succCivil (y : ℤ) (m d : Nat) : ℤ × Nat × Nat :=
  if d < daysInMonth y m then (y, m, d + 1)
  else if m < 12 then (y, m + 1, 1)
  else (y + 1, 1, 1)

/-- Source `isoPlusDays(iso, 1)` as used by the chart loop:
`new Date(iso + "T00:00:00Z")`, add one day, `toISOString().slice(0, 10)`
(zero-padded to four year digits).  A string that is not a valid ISO date,
or a successor year outside 0..9999, makes the JS expression throw (invalid
date / expanded-year form); both are modelled as `""`. -/
def isoPlusDays1 (iso : String) : String :=
  match shapeISO iso.data with
  | some (y, m, d) =>
    if validCivil (y : ℤ) m d then
      let n := succCivil (y : ℤ) m d
      if 0 ≤ n.1 ∧ n.1 ≤ 9999 then
        pad4 n.1.toNat ++ "-" ++ pad2 n.2.1 ++ "-" ++ pad2 n.2.2
      else ""
    else ""
  | none => ""

/-! ### JS `Number(...)` coercion and number printing -/

/-- Hexadecimal digit test. -/
def isHexDig (c : Char) : Bool :=
  isDig c || decide (97 ≤ c.toNat ∧ c.toNat ≤ 102) || decide (65 ≤ c.toNat ∧ c.toNat ≤ 70)

/-- Value of a hexadecimal digit. -/
def hexVal (c : Char) : Nat :=
  if isDig c then digToNat c
  else if decide (97 ≤ c.toNat) then c.toNat - 87
  else c.toNat - 55

/-- Value of a digit string in base `b`. -/
def baseDigitsToNat (b : Nat) (l : List Char) : Nat :=
  l.foldl (fun a c => b * a + hexVal c) 0

/-- A `0x`/`0o`/`0b` integer literal body (`Number` accepts these without a
sign). -/
def baseLit (b : Nat) (dig : Char → Bool) (rest : List Char) : Option ℚ :=
  if rest ≠ [] && rest.all dig then some ((baseDigitsToNat b rest : ℕ) : ℚ) else none

/-- Octal digit test. -/
def isOctDig (c : Char) : Bool := decide (48 ≤ c.toNat ∧ c.toNat ≤ 55)

/-- Binary digit test. -/
def isBinDig (c : Char) : Bool := c = '0' || c = '1'

/-- The syntactic pieces of a decimal numeric literal: sign, integer
digits, fraction digits, exponent. -/
structure NumParts where
  neg : Bool
  ip : List Char
  fp : List Char
  ex : ℤ
  deriving DecidableEq

/-- The numeric value of a decimal literal:
`sign * (ip + fp / 10^|fp|) * 10^exponent`. -/
def numValue (p : NumParts) : ℚ :=
  (if p.neg then -1 else 1) *
    ((digitsToNat p.ip : ℚ) + (digitsToNat p.fp : ℚ) / 10 ^ p.fp.length) *
    (10 : ℚ) ^ p.ex

/-- The exponent suffix of a decimal literal (`e`/`E`, optional sign,
mandatory digits, end of string). -/
def expParse (neg : Bool) (ip fp : List Char) : List Char → Option NumParts
  | [] => some ⟨neg, ip, fp, 0⟩
  | e :: r =>
    if e = 'e' || e = 'E' then
      let se : Bool × List Char :=
        match r with
        | '+' :: r2 => (false, r2)
        | '-' :: r2 => (true, r2)
        | r2 => (false, r2)
      let ed := se.2.span isDig
      if ed.1 = [] || ed.2 ≠ [] then none
      else some ⟨neg, ip, fp, (if se.1 then -1 else 1) * (digitsToNat ed.1 : ℤ)⟩
    else none

/-- Syntax of a signed decimal literal (`StrDecimalLiteral`): optional
sign, integer and/or fraction digits, optional exponent. -/
def decLitParse (t : List Char) : Option NumParts :=
  let st : Bool × List Char :=
    match t with
    | '+' :: r => (false, r)
    | '-' :: r => (true, r)
    | r => (false, r)
  let ip := st.2.span isDig
  match ip.2 with
  | '.' :: r =>
    let fp := r.span isDig
    if ip.1 = [] && fp.1 = [] then none
    else expParse st.1 ip.1 fp.1 fp.2
  | _ => if ip.1 = [] then none else expParse st.1 ip.1 [] ip.2

/-- A signed decimal literal, as a value.  `Infinity` is accepted by JS but
is not finite, and the callers treat non-finite results as invalid, so it
maps to `none` like a parse failure. -/
def decLit (t : List Char) : Option ℚ := (decLitParse t).map numValue

/-- JS `Number(s)` restricted to finite results: whitespace-trimmed; the
empty string is `0`; `0x`/`0o`/`0b` integer literals; otherwise a signed
decimal literal.  Values on which JS produces `NaN` or an infinity are
`none` (the sources always follow `Number` with a `Number.isFinite`
check). -/
def jsNumber (s : String) : Option ℚ :=
  let t := trimChars s.data
  if t = [] then some 0
  else
    match t with
    | '0' :: c :: rest =>
      if c = 'x' || c = 'X' then baseLit 16 isHexDig rest
      else if c = 'o' || c = 'O' then baseLit 8 isOctDig rest
      else if c = 'b' || c = 'B' then baseLit 2 isBinDig rest
      else decLit t
    | _ => decLit t

/-- Multiplicity of the prime `p` in `d` (structural fuel, `d` suffices). -/
def padicGo (p : Nat) : Nat → Nat → Nat
  | 0, _ => 0
  | fuel + 1, d => if d % p = 0 && d ≠ 0 && 2 ≤ p then 1 + padicGo p fuel (d / p) else 0

/-- Multiplicity of `p` in `d`. -/
def padicCount (p d : Nat) : Nat := padicGo p d d

/-- A rational with a terminating decimal expansion (denominator of the
form `2^a * 5^b`).  Every finite double displayed by JS `String(x)` prints
as such a decimal (the shortest one that reparses to `x`), so daily values
are modelled inside this class. -/
def isDecimalQ (q : ℚ) : Bool :=
  q.den = 2 ^ padicCount 2 q.den * 5 ^ padicCount 5 q.den

/-- Number of decimal fraction digits needed for `q` (when `isDecimalQ q`). -/
def decExp (q : ℚ) : Nat := max (padicCount 2 q.den) (padicCount 5 q.den)

/-- `k`-digit zero-padded decimal representation of `m < 10^k`. -/
def padZeros (k m : Nat) : List Char :=
  List.replicate (k - (natChars m).length) '0' ++ natChars m

/-- JS `` `${v}` `` for a finite number `v` with a terminating decimal
expansion: minus sign, integer digits, and (only when needed) a dot and the
fraction digits without trailing zeros.  (JS switches to exponent notation
for magnitudes `≥ 1e21` or `< 1e-6`; both spellings reparse to the same
value, and the plain decimal spelling is used here.) -/
def printNum (q : ℚ) : String :=
  let k := decExp q
  if k = 0 then intStr q.num
  else
    let a := (q.num * (10 : ℤ) ^ k / (q.den : ℤ)).natAbs
    (if q.num < 0 then "-" else "") ++
      decimalStr (a / 10 ^ k) ++ "." ++ String.mk (padZeros k (a % 10 ^ k))

/-! ### The daily-record CSV pipeline -/

/-- JS `String(vRaw).replace(/,/g, "")`. -/
def stripCommas (s : String) : String := String.mk (s.data.filter (fun c => c ≠ ','))

/-- Lowercasing of a cell for the header test. -/
def toLowerChars (l : List Char) : List Char := l.map Char.toLower

/-- One CSV line split on bare commas, each cell trimmed. -/
def csvCells (line : List Char) : List String :=
  (splitOn ',' line).map (fun c => String.mk (trimChars c))

/-- `csvParseDaily` preprocessing: split on line breaks, trim, drop blank
lines (a `\r` left by a CRLF break is removed by the trim), split each line
on commas, and keep only the rows with at least two cells. -/
def csvRowsAll (text : String) : List (List String) :=
  ((((splitOn '\n' text.data).map trimChars).filter (fun l => l ≠ [])).map csvCells).filter
    (fun cols => 2 ≤ cols.length)

/-- Optional header: drop the first kept row when its first cell contains
the substring `date` (case-insensitive). -/
def dropHeader (rows : List (List String)) : List (List String) :=
  match rows with
  | [] => []
  | r :: rest =>
    if containsChars (toLowerChars (r.headD "").data) "date".data then rest else r :: rest

/-- The data rows `csvParseDaily` iterates over. -/
def csvRows (text : String) : List (List String) := dropHeader (csvRowsAll text)

/-- The apostrophe character used in the error messages. -/
def quoteCh : String := String.mk [Char.ofNat 39]

/-- The error message of a failing row at 0-based position `i`, or `none`
for a row that parses: date failure first, then value failure. -/
def rowError (i : Nat) (r : List String) : Option String :=
  match parseInputDate (r.headD "") with
  | none =>
    some ("Row " ++ decimalStr (i + 1) ++ ": invalid date " ++ quoteCh ++ r.headD "" ++ quoteCh ++
      " (expected DD/MM/YYYY)")
  | some _ =>
    match jsNumber (stripCommas (r.getD 1 "")) with
    | none => some ("Row " ++ decimalStr (i + 1) ++ ": invalid value " ++ quoteCh ++ r.getD 1 "" ++ quoteCh)
    | some _ => none

/-- The parsed record of a row, or `none` for a failing row. -/
def rowRecord (r : List String) : Option (String × ℚ) :=
  match parseInputDate (r.headD "") with
  | none => none
  | some d => (jsNumber (stripCommas (r.getD 1 ""))).map (fun v => (d, v))

/-- The row loop of `csvParseDaily`: starting at 0-based row index `i`,
push each valid row into `parsed` and each failing row into `errors`
(1-based indices in the messages). -/
def processRowsGo : Nat → List (List String) → List (String × ℚ) × List String
  | _, [] => ([], [])
  | i, r :: rest =>
    let acc := processRowsGo (i + 1) rest
    match rowRecord r with
    | some rec2 => (rec2 :: acc.1, acc.2)
    | none =>
      match rowError i r with
      | some msg => (acc.1, msg :: acc.2)
      | none => acc

/-- Source `csvParseDaily`: `(parsed records, error messages)`. -/
def csvParseDaily (text : String) : List (String × ℚ) × List String :=
  processRowsGo 0 (csvRows text)

/-! ### Daily-record map, merge, export -/

/-- JS `Map.get` on the daily-record map (keys are unique in a real `Map`;
the first match is taken). -/
def lookupRec (m : List (String × ℚ)) (k : String) : Option ℚ :=
  (m.find? (fun p => p.1 = k)).map (fun p => p.2)

/-- JS `Map.set`: replace in place when the key exists, else append. -/
def mapSet (m : List (String × ℚ)) (k : String) (v : ℚ) : List (String × ℚ) :=
  if m.any (fun p => p.1 = k) then m.map (fun p => if p.1 = k then (k, v) else p)
  else m ++ [(k, v)]

/-- Source `mergeRecords`: copy the map, then `set` every incoming record
in order. -/
def mergeRecords (existingMap incoming : List (String × ℚ)) : List (String × ℚ) :=
  incoming.foldl (fun acc r => mapSet acc r.1 r.2) existingMap

/-- The value of the last occurrence of a date in an import list. -/
def lastWrite (incoming : List (String × ℚ)) (k : String) : Option ℚ :=
  (incoming.reverse.find? (fun p => p.1 = k)).map (fun p => p.2)

/-- Source `dailySorted`: the map entries sorted ascending by `sortISO`
(plain string comparison); `Array.prototype.sort` is stable. -/
def dailySorted (m : List (String × ℚ)) : List (String × ℚ) :=
  m.mergeSort (fun a b => strLe a.1 b.1)

/-- Source `DAILY_VALUE_COL`. -/
def DAILY_VALUE_COL : String := "RatedCapacity_GW"

/-- JS `Array.prototype.join("\n")`. -/
def joinNL : List String → String
  | [] => ""
  | [x] => x
  | x :: xs => x ++ "\n" ++ joinNL xs

/-- Source `exportDailyCSV`, the text it downloads: header line, then one
`DD/MM/YYYY,value` line per record in date order. -/
def exportDailyCSVText (m : List (String × ℚ)) : String :=
  joinNL (("date," ++ DAILY_VALUE_COL) ::
    (dailySorted m).map (fun d => formatDDMMYYYYForCSV d.1 ++ "," ++ printNum d.2))

/-- A string accepted as a daily-record key by the code itself
(`parseISOKey` returns it unchanged). -/
def validISOKey (s : String) : Bool := parseISOKey s = some s

/-- The numeric year of an ISO `YYYY-MM-DD` key (its first four digits). -/
def yearOfKey (s : String) : Nat := digitsToNat (s.data.take 4)

/-! ### The daily chart and year-over-year growth -/

/-- Source `safeDiv`: `null` denominator or zero denominator gives `null`. -/
def safeDiv (n : ℚ) (d : Option ℚ) : Option ℚ :=
  match d with
  | none => none
  | some x => if x = 0 then none else some (n / x)

/-- Source `growthPct`: `safeDiv(curr - prev, prev)`, scaled to percent. -/
def growthPct (curr prev : ℚ) : Option ℚ :=
  match safeDiv (curr - prev) (some prev) with
  | none => none
  | some r => some (r * 100)

/-- The chart loop prior-year key:
`` `${Number(cur.slice(0, 4)) - 1}${cur.slice(4)}` ``.  A four-digit prefix
is decremented and rendered without zero padding; an empty prefix
(`Number("") = 0`) yields `-1`; any other prefix is `NaN`. -/
def jsPrevYearKey (cur : String) : String :=
  let pre := cur.data.take 4
  if pre = [] then intStr (-1) ++ String.mk (cur.data.drop 4)
  else if pre.all isDig then
    intStr ((digitsToNat pre : ℤ) - 1) ++ String.mk (cur.data.drop 4)
  else "NaN" ++ String.mk (cur.data.drop 4)

/-- The prior-year key in the claim reading: the ISO string of the date
whose year component is decremented by one, keeping the month/day part
(four-digit zero-padded year). -/
def specYearDecrementKey (cur : String) : String :=
  let pre := cur.data.take 4
  if pre.length = 4 && pre.all isDig then
    pad4 (digitsToNat pre - 1) ++ String.mk (cur.data.drop 4)
  else cur

/-- One point of the daily chart. -/
structure ChartPoint where
  label : String
  units : ℚ
  prev_year_units : Option ℚ
  yoy_pct : Option ℚ
  deriving DecidableEq

/-- The chart point pushed for a date `cur` holding value `v`:
`prev_year_units` is the lookup at the prior-year key (`?? null`), and
`yoy_pct` is `growthPct` of the two values when the prior value exists. -/
def mkChartPoint (look : String → Option ℚ) (cur : String) (v : ℚ) : ChartPoint :=
  let pyVal := look (jsPrevYearKey cur)
  { label := formatDDMMYYYY cur
    units := v
    prev_year_units := pyVal
    yoy_pct :=
      match pyVal with
      | some p => growthPct v p
      | none => none }

/-- The `while (cur <= t)` loop of `dailyChart`, with an explicit iteration
bound (the source walks one day per iteration and stops after the range is
exhausted or more than 5000 points accumulated; every theorem below holds
for every bound). -/
def chartLoop (look : String → Option ℚ) (t : String) :
    Nat → String → List ChartPoint → List ChartPoint
  | 0, _, out => out
  | fuel + 1, cur, out =>
    if strLe cur t then
      let out2 :=
        match look cur with
        | some v => out ++ [mkChartPoint look cur v]
        | none => out
      if 5000 < out2.length then out2
      else chartLoop look t fuel (isoPlusDays1 cur) out2
    else out

/-- Source `dailyChart` for a nonempty record map, given the effective
endpoint strings: the smaller endpoint is the start, the larger the end. -/
def dailyChart (m : List (String × ℚ)) (fromIso toIso : String) (fuel : Nat) :
    List ChartPoint :=
  let f := if strLe fromIso toIso then fromIso else toIso
  let t := if strLe fromIso toIso then toIso else fromIso
  chartLoop (lookupRec m) t fuel f []

/-! ### Chart axis domains -/

/-- Source `computeDomain` (parameters `padPct`, `minAbsPad` default to
`0.05` and `1` at the declaration; call sites pass `0.05, 0.5` and
`0.05, 1`). -/
def computeDomain (values : List (Option ℚ)) (padPct minAbsPad : ℚ) :
    Option (ℚ × ℚ) :=
  match values.filterMap id with
  | [] => none
  | h :: rest =>
    let mn := rest.foldl min h
    let mx := rest.foldl max h
    if mn = mx then
      let pad := max minAbsPad (|mn| * padPct)
      some (mn - pad, mx + pad)
    else
      let pad := max minAbsPad ((mx - mn) * padPct)
      some (mn - pad, mx + pad)

/-! ## Theorems -/

/-- Claim C1: for every source the rated capacity is
`round2(installed[s] * plf[s] / 100)`, and the rated-capacity total is the sum
over the eight sources of these already-rounded per-source values.  The last
conjunct exhibits inputs (all installed = 1, all plf = 0.5) on which that
total differs from the rounding of the unrounded sum, so the order of
operations is observable. -/
theorem c1_rated_capacity_rounding :
    (∀ installed plf : SourceKey → ℚ, ∀ s,
      ratedBySource installed plf s = round2 (installed s * plf s / 100)) ∧
    (∀ installed plf : SourceKey → ℚ,
      ratedTotal installed plf
        = (SOURCES.map (fun s => round2 (installed s * plf s / 100))).sum) ∧
    ratedTotal (fun _ => 1) (fun _ => 1 / 2)
      ≠ round2 ((SOURCES.map (fun _ => (1 : ℚ) * (1 / 2) / 100)).sum) := by
  refine ⟨?_, ?_, ?_⟩
  · intro installed plf s
    simp [ratedBySource, safeNum, mul_div_assoc]
  · intro installed plf
    simp [ratedTotal, sumSources, SOURCES, ratedBySource, safeNum, mul_div_assoc]
    ring
  · norm_num [ratedTotal, sumSources, SOURCES, ratedBySource, safeNum, round2, jsRound]

/-! ### Shared digit lemmas -/

theorem isDig_digitChar {n : Nat} (h : n < 10) : isDig (digitChar n) = true := by
  interval_cases n <;> decide

theorem digToNat_digitChar {n : Nat} (h : n < 10) : digToNat (digitChar n) = n := by
  interval_cases n <;> decide

theorem digToNat_lt {c : Char} (h : isDig c = true) : digToNat c < 10 := by
  simp [isDig] at h
  simp [digToNat]
  omega

theorem digitsToNat_foldl (a : Nat) (l : List Char) :
    l.foldl (fun x c => 10 * x + digToNat c) a = a * 10 ^ l.length + digitsToNat l := by
  induction l generalizing a with
  | nil => simp [digitsToNat]
  | cons c cs ih =>
    simp only [List.foldl_cons, List.length_cons, digitsToNat]
    rw [ih (10 * a + digToNat c), ih (10 * 0 + digToNat c)]
    ring

theorem digitsToNat_append_singleton (xs : List Char) (c : Char) :
    digitsToNat (xs ++ [c]) = 10 * digitsToNat xs + digToNat c := by
  simp only [digitsToNat, List.foldl_append, List.foldl_cons, List.foldl_nil]

theorem natCharsGo_small {n : Nat} (fuel : Nat) (h : n < 10) :
    natCharsGo fuel n = [digitChar n] := by
  cases fuel with
  | zero => simp [natCharsGo, Nat.mod_eq_of_lt h]
  | succ f => simp [natCharsGo, h]

theorem natCharsGo_digits (fuel : Nat) :
    ∀ n c, c ∈ natCharsGo fuel n → isDig c = true := by
  induction fuel with
  | zero =>
    intro n c hc
    simp [natCharsGo] at hc
    subst hc
    exact isDig_digitChar (Nat.mod_lt _ (by omega))
  | succ f ih =>
    intro n c hc
    by_cases hn : n < 10
    · simp [natCharsGo, hn] at hc
      subst hc
      exact isDig_digitChar hn
    · simp [natCharsGo, hn] at hc
      rcases hc with hc | hc
      · exact ih _ _ hc
      · subst hc
        exact isDig_digitChar (Nat.mod_lt _ (by omega))

theorem natCharsGo_val (fuel : Nat) :
    ∀ n, n ≤ fuel → digitsToNat (natCharsGo fuel n) = n := by
  induction fuel with
  | zero =>
    intro n hn
    have : n = 0 := by omega
    subst this
    decide
  | succ f ih =>
    intro n hn
    by_cases h10 : n < 10
    · rw [natCharsGo_small _ h10]
      simp [digitsToNat, digToNat_digitChar h10]
    · have hstep : natCharsGo (f + 1) n = natCharsGo f (n / 10) ++ [digitChar (n % 10)] := by
        simp [natCharsGo, h10]
      rw [hstep, digitsToNat_append_singleton,
        ih (n / 10) (by omega), digToNat_digitChar (Nat.mod_lt _ (by omega))]
      omega

theorem natChars_digits {n : Nat} {c : Char} (hc : c ∈ natChars n) : isDig c = true :=
  natCharsGo_digits n n c hc

theorem digitsToNat_natChars (n : Nat) : digitsToNat (natChars n) = n :=
  natCharsGo_val n n le_rfl

theorem natChars_two_digit {n : Nat} (h1 : 10 ≤ n) (h2 : n ≤ 99) :
    natChars n = [digitChar (n / 10), digitChar (n % 10)] := by
  obtain ⟨f, hf⟩ : ∃ f, n = f + 1 := ⟨n - 1, by omega⟩
  rw [natChars, hf]
  have h10 : ¬ f + 1 < 10 := by omega
  simp only [natCharsGo, h10, if_false]
  rw [natCharsGo_small f (by omega)]
  rfl

theorem pad2_shape {n : Nat} (h : n ≤ 99) :
    ∃ a b, (pad2 n).data = [a, b] ∧ isDig a = true ∧ isDig b = true ∧
      digitsToNat [a, b] = n := by
  by_cases h10 : n < 10
  · refine ⟨'0', digitChar n, ?_, by decide, isDig_digitChar h10, ?_⟩
    · rw [pad2, if_pos h10]
      rw [String.data_append]
      simp [decimalStr, natChars, natCharsGo_small n h10]
    · have h0 : digToNat '0' = 0 := by decide
      simp [digitsToNat, h0, digToNat_digitChar h10]
  · refine ⟨digitChar (n / 10), digitChar (n % 10), ?_, isDig_digitChar (by omega),
      isDig_digitChar (Nat.mod_lt _ (by omega)), ?_⟩
    · rw [pad2, if_neg h10]
      simp [decimalStr, natChars_two_digit (by omega) h]
    · simp [digitsToNat, digToNat_digitChar (show n / 10 < 10 by omega),
        digToNat_digitChar (Nat.mod_lt n (by omega))]
      omega

/-! ### Claim C8: `computeDomain` -/

theorem foldl_min_le (h : ℚ) (rest : List ℚ) :
    ∀ v ∈ h :: rest, rest.foldl min h ≤ v := by
  induction rest generalizing h with
  | nil => intro v hv; simp at hv; simp [hv]
  | cons r rs ih =>
    intro v hv
    simp only [List.foldl_cons]
    rcases List.mem_cons.1 hv with rfl | hv'
    · exact le_trans (ih (min v r) _ (List.mem_cons_self _ _)) (min_le_left _ _)
    · rcases List.mem_cons.1 hv' with rfl | hv'
      · exact le_trans (ih (min h v) _ (List.mem_cons_self _ _)) (min_le_right _ _)
      · exact ih (min h r) v (List.mem_cons_of_mem _ hv')

theorem foldl_min_mem (h : ℚ) (rest : List ℚ) :
    rest.foldl min h ∈ h :: rest := by
  induction rest generalizing h with
  | nil => simp
  | cons r rs ih =>
    simp only [List.foldl_cons]
    have := ih (min h r)
    rcases List.mem_cons.1 this with heq | hmem
    · rcases min_choice h r with hc | hc <;> rw [heq, hc]
      · exact List.mem_cons_self _ _
      · exact List.mem_cons_of_mem _ (List.mem_cons_self _ _)
    · exact List.mem_cons_of_mem _ (List.mem_cons_of_mem _ hmem)

theorem foldl_max_le (h : ℚ) (rest : List ℚ) :
    ∀ v ∈ h :: rest, v ≤ rest.foldl max h := by
  induction rest generalizing h with
  | nil => intro v hv; simp at hv; simp [hv]
  | cons r rs ih =>
    intro v hv
    simp only [List.foldl_cons]
    rcases List.mem_cons.1 hv with rfl | hv'
    · exact le_trans (le_max_left _ _) (ih (max v r) _ (List.mem_cons_self _ _))
    · rcases List.mem_cons.1 hv' with rfl | hv'
      · exact le_trans (le_max_right _ _) (ih (max h v) _ (List.mem_cons_self _ _))
      · exact ih (max h r) v (List.mem_cons_of_mem _ hv')

theorem foldl_max_mem (h : ℚ) (rest : List ℚ) :
    rest.foldl max h ∈ h :: rest := by
  induction rest generalizing h with
  | nil => simp
  | cons r rs ih =>
    simp only [List.foldl_cons]
    have := ih (max h r)
    rcases List.mem_cons.1 this with heq | hmem
    · rcases max_choice h r with hc | hc <;> rw [heq, hc]
      · exact List.mem_cons_self _ _
      · exact List.mem_cons_of_mem _ (List.mem_cons_self _ _)
    · exact List.mem_cons_of_mem _ (List.mem_cons_of_mem _ hmem)

/-- Claim C8: `computeDomain` drops `null` entries and returns `none` only
on an empty remainder; otherwise it returns `[min - pad, max + pad]` with
`pad = max(minAbsPad, (max - min) * padPct)` and, for `min = max`,
`pad = max(minAbsPad, |min| * padPct)`; the interval has strictly positive
width whenever `minAbsPad > 0` (it is `1`, `0.5` or the default `1` at
every use); and `computeDomain [50]` with `padPct = 0.05`, `minAbsPad = 1`
is `[47.5, 52.5]`. -/
theorem c8_computeDomain :
    (∀ (values : List (Option ℚ)) (padPct minAbsPad : ℚ),
      (computeDomain values padPct minAbsPad = none ↔ values.filterMap id = []) ∧
      (∀ lo hi, computeDomain values padPct minAbsPad = some (lo, hi) →
        ∃ mn mx, mn ∈ values.filterMap id ∧ mx ∈ values.filterMap id ∧
          (∀ v ∈ values.filterMap id, mn ≤ v ∧ v ≤ mx) ∧
          lo = mn - (if mn = mx then max minAbsPad (|mn| * padPct)
            else max minAbsPad ((mx - mn) * padPct)) ∧
          hi = mx + (if mn = mx then max minAbsPad (|mn| * padPct)
            else max minAbsPad ((mx - mn) * padPct)) ∧
          (0 < minAbsPad → lo < hi))) ∧
    computeDomain [some 50] (5 / 100) 1 = some (47.5, 52.5) := by
  constructor
  · intro values padPct minAbsPad
    constructor
    · rw [computeDomain]
      match hv : values.filterMap id with
      | [] => simp
      | h :: rest => simp only; split <;> simp
    · intro lo hi hlohi
      rw [computeDomain] at hlohi
      match hv : values.filterMap id with
      | [] => rw [hv] at hlohi; simp at hlohi
      | h :: rest =>
        rw [hv] at hlohi
        simp only at hlohi
        refine ⟨rest.foldl min h, rest.foldl max h, foldl_min_mem h rest,
          foldl_max_mem h rest, fun v hv2 => ⟨foldl_min_le h rest v hv2,
            foldl_max_le h rest v hv2⟩, ?_⟩
        have hmnmx : rest.foldl min h ≤ rest.foldl max h :=
          le_trans (foldl_min_le h rest h (List.mem_cons_self _ _))
            (foldl_max_le h rest h (List.mem_cons_self _ _))
        by_cases heq : rest.foldl min h = rest.foldl max h
        · rw [if_pos heq] at hlohi ⊢
          simp only [heq] at hlohi ⊢
          obtain ⟨h1, h2⟩ := Prod.mk.injEq _ _ _ _ ▸ Option.some.injEq _ _ ▸ hlohi
          refine ⟨by rw [← h1], by rw [← h2], fun hpos => ?_⟩
          rw [← h1, ← h2]
          have : 0 < max minAbsPad (|rest.foldl max h| * padPct) :=
            lt_of_lt_of_le hpos (le_max_left _ _)
          linarith
        · rw [if_neg heq] at hlohi ⊢
          obtain ⟨h1, h2⟩ := Prod.mk.injEq _ _ _ _ ▸ Option.some.injEq _ _ ▸ hlohi
          refine ⟨by rw [← h1], by rw [← h2], fun hpos => ?_⟩
          rw [← h1, ← h2]
          have : 0 < max minAbsPad ((rest.foldl max h - rest.foldl min h) * padPct) :=
            lt_of_lt_of_le hpos (le_max_left _ _)
          linarith
  · have hmax : max (1 : ℚ) (|(50 : ℚ)| * (5 / 100)) = 5 / 2 := by
      rw [max_eq_right] <;> norm_num
    simp only [computeDomain, List.filterMap_cons, List.filterMap_nil, id,
      List.foldl_nil, if_pos rfl, hmax]
    norm_num

/-- Witness for C8 at the concrete input `[50]`, `padPct = 0.05`,
`minAbsPad = 1`. -/
theorem c8_computeDomain_witness :
    ∃ mn mx, mn ∈ ([some (50 : ℚ)].filterMap id) ∧ mx ∈ ([some (50 : ℚ)].filterMap id) ∧
      (∀ v ∈ ([some (50 : ℚ)].filterMap id), mn ≤ v ∧ v ≤ mx) ∧
      (47.5 : ℚ) = mn - (if mn = mx then max 1 (|mn| * (5 / 100))
        else max 1 ((mx - mn) * (5 / 100))) ∧
      (52.5 : ℚ) = mx + (if mn = mx then max 1 (|mn| * (5 / 100))
        else max 1 ((mx - mn) * (5 / 100))) ∧
      ((0 : ℚ) < 1 → (47.5 : ℚ) < 52.5) :=
  (c8_computeDomain.1 [some 50] (5 / 100) 1).2 47.5 52.5 c8_computeDomain.2

/-! ### Claim C10: `mergeRecords` -/

theorem find?_replace (m : List (String × ℚ)) (k : String) (v : ℚ) :
    (m.map (fun p => if p.1 = k then (k, v) else p)).find? (fun p => p.1 = k)
      = (m.find? (fun p => p.1 = k)).map (fun _ => (k, v)) := by
  induction m with
  | nil => simp
  | cons p ps ih =>
    by_cases hp : p.1 = k
    · simp [List.find?_cons, hp]
    · simp only [List.map_cons, if_neg hp, List.find?_cons]
      have : (decide (p.1 = k)) = false := by simp [hp]
      simp only [this]
      exact ih

theorem find?_replace_ne (m : List (String × ℚ)) (k k' : String) (v : ℚ) (h : k' ≠ k) :
    (m.map (fun p => if p.1 = k then (k, v) else p)).find? (fun p => p.1 = k')
      = m.find? (fun p => p.1 = k') := by
  induction m with
  | nil => simp
  | cons p ps ih =>
    by_cases hp : p.1 = k
    · have hk : ¬ (k = k') := fun hh => h hh.symm
      have hp' : ¬ (p.1 = k') := by rw [hp]; exact hk
      simp only [List.map_cons, if_pos hp, List.find?_cons]
      have h1 : (decide ((k, v).1 = k')) = false := by simp [hk]
      have h2 : (decide (p.1 = k')) = false := by simp [hp']
      simp only [h1, h2]
      exact ih
    · simp only [List.map_cons, if_neg hp, List.find?_cons]
      cases hd : (decide (p.1 = k')) <;> simp [ih]

theorem lookupRec_mapSet_self (m : List (String × ℚ)) (k : String) (v : ℚ) :
    lookupRec (mapSet m k v) k = some v := by
  rw [mapSet]
  by_cases ha : m.any (fun p => p.1 = k)
  · rw [if_pos ha, lookupRec, find?_replace]
    rcases List.any_eq_true.1 ha with ⟨p, hp, hpk⟩
    have : (m.find? (fun p => p.1 = k)).isSome := by
      rw [List.find?_isSome]; exact ⟨p, hp, hpk⟩
    rcases Option.isSome_iff_exists.1 this with ⟨q, hq⟩
    simp [hq]
  · rw [if_neg ha, lookupRec, List.find?_append]
    have hnone : m.find? (fun p => p.1 = k) = none := by
      rw [List.find?_eq_none]
      intro x hx hxk
      exact ha (List.any_eq_true.2 ⟨x, hx, hxk⟩)
    simp [hnone]

theorem lookupRec_mapSet_ne (m : List (String × ℚ)) (k k' : String) (v : ℚ)
    (h : k' ≠ k) : lookupRec (mapSet m k v) k' = lookupRec m k' := by
  rw [mapSet]
  by_cases ha : m.any (fun p => p.1 = k)
  · rw [if_pos ha, lookupRec, find?_replace_ne m k k' v h, lookupRec]
  · rw [if_neg ha, lookupRec, List.find?_append, lookupRec]
    have hne : k ≠ k' := fun hh => h hh.symm
    have hfind : List.find? (fun p => p.1 = k') [(k, v)] = none := by
      simp [List.find?_cons, hne]
    rw [hfind]
    cases m.find? (fun p => p.1 = k') <;> simp

/-- Claim C10: merging an import touches exactly the imported dates — an
existing entry whose date is absent from the import is unchanged, every
imported date ends up mapped to its last occurrence in the import, and no
entry is removed. -/
theorem c10_mergeRecords_frame :
    ∀ (m incoming : List (String × ℚ)),
      (∀ k, (∀ p ∈ incoming, p.1 ≠ k) →
        lookupRec (mergeRecords m incoming) k = lookupRec m k) ∧
      (∀ k, (∃ p ∈ incoming, p.1 = k) →
        lookupRec (mergeRecords m incoming) k = lastWrite incoming k) ∧
      (∀ k, (lookupRec m k).isSome → (lookupRec (mergeRecords m incoming) k).isSome) := by
  have frame : ∀ (incoming m : List (String × ℚ)) (k : String),
      (∀ p ∈ incoming, p.1 ≠ k) →
      lookupRec (mergeRecords m incoming) k = lookupRec m k := by
    intro incoming
    induction incoming with
    | nil => intro m k _; rfl
    | cons r rs ih =>
      intro m k hk
      have hstep : mergeRecords m (r :: rs) = mergeRecords (mapSet m r.1 r.2) rs := rfl
      rw [hstep, ih _ k (fun p hp => hk p (List.mem_cons_of_mem _ hp)),
        lookupRec_mapSet_ne _ _ _ _ (fun hh => hk r (List.mem_cons_self _ _) hh.symm)]
  have last : ∀ (incoming m : List (String × ℚ)) (k : String),
      (∃ p ∈ incoming, p.1 = k) →
      lookupRec (mergeRecords m incoming) k = lastWrite incoming k := by
    intro incoming
    induction incoming with
    | nil => intro m k hk; rcases hk with ⟨p, hp, _⟩; simp at hp
    | cons r rs ih =>
      intro m k hk
      have hstep : mergeRecords m (r :: rs) = mergeRecords (mapSet m r.1 r.2) rs := rfl
      by_cases hrs : ∃ p ∈ rs, p.1 = k
      · rw [hstep, ih _ k hrs]
        rcases hrs with ⟨p, hp, hpk⟩
        have hsome : (rs.reverse.find? (fun p => p.1 = k)).isSome := by
          rw [List.find?_isSome]
          exact ⟨p, List.mem_reverse.2 hp, by simp [hpk]⟩
        rcases Option.isSome_iff_exists.1 hsome with ⟨q, hq⟩
        rw [lastWrite, lastWrite]
        simp only [List.reverse_cons, List.find?_append, hq]
        simp
      · have hrk : r.1 = k := by
          rcases hk with ⟨p, hp, hpk⟩
          rcases List.mem_cons.1 hp with rfl | hp'
          · exact hpk
          · exact absurd ⟨p, hp', hpk⟩ hrs
        have hnone : rs.reverse.find? (fun p => p.1 = k) = none := by
          rw [List.find?_eq_none]
          intro x hx hxk
          exact hrs ⟨x, List.mem_reverse.1 hx, by simpa using hxk⟩
        rw [hstep, frame rs _ k (fun p hp hpk => hrs ⟨p, hp, hpk⟩), ← hrk,
          lookupRec_mapSet_self]
        rw [lastWrite]
        simp only [List.reverse_cons, List.find?_append]
        simp [hnone, List.find?_cons, hrk]
  intro m incoming
  refine ⟨fun k hk => frame incoming m k hk, fun k hk => last incoming m k hk, ?_⟩
  intro k hk
  by_cases hin : ∃ p ∈ incoming, p.1 = k
  · rw [last incoming m k hin]
    rcases hin with ⟨p, hp, hpk⟩
    have : (incoming.reverse.find? (fun p => p.1 = k)).isSome := by
      rw [List.find?_isSome]
      exact ⟨p, List.mem_reverse.2 hp, by simp [hpk]⟩
    rcases Option.isSome_iff_exists.1 this with ⟨q, hq⟩
    simp [lastWrite, hq]
  · rw [frame incoming m k (fun p hp hpk => hin ⟨p, hp, hpk⟩)]
    exact hk

/-- Witness for C10 on a concrete map and import: the untouched date keeps
its value, the duplicated imported date takes the last occurrence, and the
existing entry survives. -/
theorem c10_mergeRecords_frame_witness :
    lookupRec (mergeRecords [("2024-01-01", (1 : ℚ))]
        [("2024-01-02", 2), ("2024-01-02", 3)]) "2024-01-01"
      = lookupRec [("2024-01-01", (1 : ℚ))] "2024-01-01" ∧
    lookupRec (mergeRecords [("2024-01-01", (1 : ℚ))]
        [("2024-01-02", 2), ("2024-01-02", 3)]) "2024-01-02"
      = lastWrite [("2024-01-02", 2), ("2024-01-02", 3)] "2024-01-02" := by
  refine ⟨(c10_mergeRecords_frame [("2024-01-01", (1 : ℚ))]
      [("2024-01-02", 2), ("2024-01-02", 3)]).1 "2024-01-01" ?_,
    (c10_mergeRecords_frame [("2024-01-01", (1 : ℚ))]
      [("2024-01-02", 2), ("2024-01-02", 3)]).2.1 "2024-01-02" ?_⟩
  · intro p hp
    rcases List.mem_cons.1 hp with rfl | hp'
    · decide
    · rcases List.mem_cons.1 hp' with rfl | hp''
      · decide
      · simp at hp''
  · exact ⟨("2024-01-02", 2), List.mem_cons_self _ _, rfl⟩

/-! ### Claim C2: `normalizeMonth` -/

theorem digitsToNat_pair_le {a b : Char} (ha : isDig a = true) (hb : isDig b = true) :
    digitsToNat [a, b] ≤ 99 := by
  have h1 := digToNat_lt ha
  have h2 := digToNat_lt hb
  simp only [digitsToNat, List.foldl_cons, List.foldl_nil]
  omega

theorem isMonthKeyShape_build {c1 c2 y1 y2 y3 y4 : Char} (r : String)
    (hdata : r.data = [c1, c2, '/', y1, y2, y3, y4])
    (h1 : isDig c1 = true) (h2 : isDig c2 = true) (h3 : isDig y1 = true)
    (h4 : isDig y2 = true) (h5 : isDig y3 = true) (h6 : isDig y4 = true) :
    isMonthKeyShape r = true := by
  rw [isMonthKeyShape, hdata]
  simp [h1, h2, h3, h4, h5, h6]

theorem monthShape1_shape {t : List Char} {r : String}
    (h : monthShape1 t = some r) : isMonthKeyShape r = true := by
  unfold monthShape1 at h
  split at h
  case h_1 a y1 y2 y3 y4 =>
    split at h
    case isTrue hg =>
      simp only [Bool.and_eq_true] at hg
      obtain ⟨⟨⟨⟨ha, h1⟩, h2⟩, h3⟩, h4⟩ := hg
      obtain ⟨c1, c2, hp, hc1, hc2, _⟩ :=
        pad2_shape (n := digitsToNat [a]) (by
          have := digToNat_lt ha
          simp only [digitsToNat, List.foldl_cons, List.foldl_nil]
          omega)
      obtain rfl := Option.some.injEq _ _ ▸ h
      refine isMonthKeyShape_build _ ?_ hc1 hc2 h1 h2 h3 h4
      rw [String.data_append, String.data_append, hp]
      rfl
    case isFalse => exact absurd h (by simp)
  case h_2 a b y1 y2 y3 y4 =>
    split at h
    case isTrue hg =>
      simp only [Bool.and_eq_true] at hg
      obtain ⟨⟨⟨⟨⟨ha, hb⟩, h1⟩, h2⟩, h3⟩, h4⟩ := hg
      obtain ⟨c1, c2, hp, hc1, hc2, _⟩ :=
        pad2_shape (digitsToNat_pair_le ha hb)
      obtain rfl := Option.some.injEq _ _ ▸ h
      refine isMonthKeyShape_build _ ?_ hc1 hc2 h1 h2 h3 h4
      rw [String.data_append, String.data_append, hp]
      rfl
    case isFalse => exact absurd h (by simp)
  case h_3 => exact absurd h (by simp)

theorem monthShapeDMY_shape {sep : Char} {t : List Char} {r : String}
    (h : monthShapeDMY sep t = some r) : isMonthKeyShape r = true := by
  unfold monthShapeDMY at h
  split at h
  case h_1 d1 d2 s1 m1 m2 s2 y1 y2 y3 y4 =>
    split at h
    case isTrue hg =>
      simp only [Bool.and_eq_true] at hg
      obtain ⟨⟨⟨⟨⟨⟨⟨⟨⟨_, _⟩, _⟩, _⟩, hm1⟩, hm2⟩, h1⟩, h2⟩, h3⟩, h4⟩ := hg
      obtain rfl := Option.some.injEq _ _ ▸ h
      refine isMonthKeyShape_build _ ?_ hm1 hm2 h1 h2 h3 h4
      rw [String.data_append, String.data_append]
      rfl
    case isFalse => exact absurd h (by simp)
  case h_2 => exact absurd h (by simp)

theorem monthShapeISO_shape {t : List Char} {r : String}
    (h : monthShapeISO t = some r) : isMonthKeyShape r = true := by
  unfold monthShapeISO at h
  split at h
  case h_1 y1 y2 y3 y4 m1 m2 d1 d2 =>
    split at h
    case isTrue hg =>
      simp only [Bool.and_eq_true] at hg
      obtain ⟨⟨⟨⟨⟨⟨⟨h1, h2⟩, h3⟩, h4⟩, hm1⟩, hm2⟩, _⟩, _⟩ := hg
      obtain rfl := Option.some.injEq _ _ ▸ h
      refine isMonthKeyShape_build _ ?_ hm1 hm2 h1 h2 h3 h4
      rw [String.data_append, String.data_append]
      rfl
    case isFalse => exact absurd h (by simp)
  case h_2 => exact absurd h (by simp)

/-- Claim C2, counterexample: `normalizeMonth` accepts `"13/2024"` and
returns it unchanged, whose month component `13` is outside `[01, 12]` —
the claimed month-range invariant does not hold. -/
theorem c2_normalizeMonth_counterexample :
    normalizeMonth "13/2024" = some "13/2024" ∧
    ¬ (1 ≤ monthNumOfKey "13/2024" ∧ monthNumOfKey "13/2024" ≤ 12) := by
  decide

/-- Claim C2 as amended: a non-null `normalizeMonth` result always has the
canonical shape `MM/YYYY` (two digits, slash, four digits) — but the month
digits are carried over without a range check, so the month component may
lie outside `[01, 12]`; and when none of the five accepted shapes matches
the trimmed input, the result is `null`. -/
theorem c2_normalizeMonth_amended :
    ∀ s : String,
      (∀ r, normalizeMonth s = some r → isMonthKeyShape r = true) ∧
      (monthShape1 (trimChars s.data) = none →
        monthShapeDMY '/' (trimChars s.data) = none →
        monthShapeDMY '-' (trimChars s.data) = none →
        monthShapeISO (trimChars s.data) = none →
        normalizeMonth s = none) := by
  intro s
  constructor
  · intro r h
    rw [normalizeMonth] at h
    by_cases ht : trimChars s.data = []
    · rw [if_pos ht] at h
      exact absurd h (by simp)
    · rw [if_neg ht] at h
      rcases h1 : monthShape1 (trimChars s.data) with _ | r1
      · rw [h1] at h
        simp only at h
        rcases h2 : monthShapeDMY '/' (trimChars s.data) with _ | r2
        · rw [h2] at h
          simp only at h
          rcases h3 : monthShapeDMY '-' (trimChars s.data) with _ | r3
          · rw [h3] at h
            simp only at h
            exact monthShapeISO_shape h
          · rw [h3] at h
            simp only [Option.some.injEq] at h
            subst h
            exact monthShapeDMY_shape h3
        · rw [h2] at h
          simp only [Option.some.injEq] at h
          subst h
          exact monthShapeDMY_shape h2
      · rw [h1] at h
        simp only [Option.some.injEq] at h
        subst h
        exact monthShape1_shape h1
  · intro h1 h2 h3 h4
    rw [normalizeMonth]
    by_cases ht : trimChars s.data = []
    · rw [if_pos ht]
    · rw [if_neg ht, h1, h2, h3, h4]

/-- Witness for the amended C2 at the concrete inputs `"04/2024"`
(accepted, canonical shape) and `"garbage"` (no shape, `null`). -/
theorem c2_normalizeMonth_amended_witness :
    isMonthKeyShape "04/2024" = true ∧ normalizeMonth "garbage" = none := by
  constructor
  · exact (c2_normalizeMonth_amended "4/2024").1 "04/2024" (by decide)
  · exact (c2_normalizeMonth_amended "garbage").2 (by decide) (by decide) (by decide)
      (by decide)

/-! ### Claim C6: `clampMonthKeyToOptions` -/

theorem compareMonthKey_le_iff (a b : String) :
    compareMonthKey a b ≤ 0 ↔
      ((monthKeyNumsD a).2 < (monthKeyNumsD b).2 ∨
        ((monthKeyNumsD a).2 = (monthKeyNumsD b).2 ∧
          (monthKeyNumsD a).1 ≤ (monthKeyNumsD b).1)) := by
  rw [compareMonthKey]
  by_cases h : (monthKeyNumsD a).2 ≠ (monthKeyNumsD b).2
  · rw [if_pos h]
    omega
  · rw [if_neg h]
    omega

theorem compareMonthKey_refl (a : String) : compareMonthKey a a = 0 := by
  rw [compareMonthKey]
  simp

theorem compareMonthKey_trans {a b c : String} (h1 : compareMonthKey a b ≤ 0)
    (h2 : compareMonthKey b c ≤ 0) : compareMonthKey a c ≤ 0 := by
  rw [compareMonthKey_le_iff] at h1 h2 ⊢
  omega

theorem compareMonthKey_total (a b : String) :
    compareMonthKey a b ≤ 0 ∨ compareMonthKey b a ≤ 0 := by
  rw [compareMonthKey_le_iff, compareMonthKey_le_iff]
  omega

theorem mergeSort_cmp_sorted (l : List String) :
    List.Pairwise (fun a b => (decide (compareMonthKey a b ≤ 0)) = true)
      (l.mergeSort (fun a b => decide (compareMonthKey a b ≤ 0))) := by
  refine List.sorted_mergeSort ?_ ?_ l
  · intro a b c hab hbc
    rw [decide_eq_true_eq] at hab hbc ⊢
    exact compareMonthKey_trans hab hbc
  · intro a b
    rw [Bool.or_eq_true, decide_eq_true_eq, decide_eq_true_eq]
    exact compareMonthKey_total a b

/-- Claim C6: `clampMonthKeyToOptions` returns the target when present;
otherwise, when some option compares `≤` the target, it returns an option
that is `≤` the target and maximal (under `compareMonthKey`) among those;
and when every option compares `>` the target it returns an option that is
minimal among all options.  The two concrete examples of the specification
close the statement. -/
theorem c6_clampMonthKeyToOptions :
    (∀ (target : String) (options : List String), options ≠ [] →
      (monthKeyNums target).isSome → (∀ o ∈ options, (monthKeyNums o).isSome) →
      (target ∈ options → clampMonthKeyToOptions target options = target) ∧
      ((∃ o ∈ options, compareMonthKey o target ≤ 0) →
        clampMonthKeyToOptions target options ∈ options ∧
        compareMonthKey (clampMonthKeyToOptions target options) target ≤ 0 ∧
        (∀ o ∈ options, compareMonthKey o target ≤ 0 →
          compareMonthKey o (clampMonthKeyToOptions target options) ≤ 0)) ∧
      ((∀ o ∈ options, 0 < compareMonthKey o target) →
        clampMonthKeyToOptions target options ∈ options ∧
        (∀ o ∈ options, compareMonthKey (clampMonthKeyToOptions target options) o ≤ 0))) ∧
    clampMonthKeyToOptions "06/2024" ["01/2024", "04/2024", "09/2024"] = "04/2024" ∧
    clampMonthKeyToOptions "12/2020" ["01/2024"] = "01/2024" := by
  refine ⟨?_, ?_, ?_⟩
  · intro target options hne _ _
    have hempty : options.isEmpty = false := by
      cases options with
      | nil => exact absurd rfl hne
      | cons o os => rfl
    have hcont : ∀ h : target ∈ options, options.contains target = true :=
      fun h => List.elem_iff.2 h
    refine ⟨?_, ?_, ?_⟩
    · intro hmem
      rw [clampMonthKeyToOptions, hempty, hcont hmem]
      rfl
    · intro hex
      by_cases hmem : target ∈ options
      · rw [clampMonthKeyToOptions, hempty, hcont hmem]
        simp only [Bool.false_eq_true, if_false, if_true]
        exact ⟨hmem, le_of_eq (compareMonthKey_refl target), fun o _ ho => ho⟩
      · have hcontf : options.contains target = false := by
          cases hc : options.contains target with
          | false => rfl
          | true => exact absurd (List.elem_iff.1 hc) hmem
        rw [clampMonthKeyToOptions, hempty, hcontf]
        simp only [Bool.false_eq_true, if_false]
        set sorted := options.mergeSort (fun a b => decide (compareMonthKey a b ≤ 0)) with hsorted
        have hperm : ∀ x, x ∈ sorted ↔ x ∈ options := fun x => List.mem_mergeSort
        have hfind : (sorted.reverse.find?
            (fun o => decide (compareMonthKey o target ≤ 0))).isSome := by
          rw [List.find?_isSome]
          rcases hex with ⟨o, ho, hole⟩
          exact ⟨o, List.mem_reverse.2 ((hperm o).2 ho), by simpa using hole⟩
        rcases Option.isSome_iff_exists.1 hfind with ⟨r, hr⟩
        rw [hr]
        simp only
        rcases List.find?_eq_some.1 hr with ⟨hpred, as2, bs, hsplit, hprev⟩
        have hrs : r ∈ sorted := List.mem_reverse.1 (hsplit ▸ List.mem_append.2
          (Or.inr (List.mem_cons_self _ _)))
        have hdec : sorted = bs.reverse ++ r :: as2.reverse := by
          have := congrArg List.reverse hsplit
          simpa [List.reverse_append] using this
        refine ⟨(hperm r).1 hrs, by simpa using hpred, ?_⟩
        intro o ho hole
        have hos : o ∈ sorted := (hperm o).2 ho
        rw [hdec] at hos
        rcases List.mem_append.1 hos with hobs | hoc
        · have hp := mergeSort_cmp_sorted options
          rw [← hsorted, hdec, List.pairwise_append] at hp
          have := hp.2.2 o hobs r (List.mem_cons_self _ _)
          simpa using this
        · rcases List.mem_cons.1 hoc with rfl | hoas
          · exact le_of_eq (compareMonthKey_refl o)
          · have := hprev o (List.mem_reverse.1 hoas)
            simp only [Bool.not_eq_eq_eq_not, Bool.not_true, decide_eq_false_iff_not] at this
            exact absurd hole this
    · intro hall
      have hmemf : target ∉ options := fun hmem => by
        have := hall target hmem
        rw [compareMonthKey_refl] at this
        omega
      have hcontf : options.contains target = false := by
        cases hc : options.contains target with
        | false => rfl
        | true => exact absurd (List.elem_iff.1 hc) hmemf
      rw [clampMonthKeyToOptions, hempty, hcontf]
      simp only [Bool.false_eq_true, if_false]
      set sorted := options.mergeSort (fun a b => decide (compareMonthKey a b ≤ 0)) with hsorted
      have hperm : ∀ x, x ∈ sorted ↔ x ∈ options := fun x => List.mem_mergeSort
      have hfnone : sorted.reverse.find? (fun o => decide (compareMonthKey o target ≤ 0))
          = none := by
        rw [List.find?_eq_none]
        intro x hx
        have := hall x ((hperm x).1 (List.mem_reverse.1 hx))
        simp only [decide_eq_true_eq]
        omega
      rw [hfnone]
      simp only
      have hsne : sorted ≠ [] := by
        intro hnil
        rcases options with _ | ⟨o, os⟩
        · exact hne rfl
        · have : o ∈ sorted := (hperm o).2 (List.mem_cons_self _ _)
          rw [hnil] at this
          simp at this
      rcases hs : sorted with _ | ⟨h0, rest⟩
      · exact absurd hs hsne
      · simp only [List.headD_cons]
        have hp := mergeSort_cmp_sorted options
        rw [← hsorted, hs, List.pairwise_cons] at hp
        refine ⟨(hperm h0).1 (hs ▸ List.mem_cons_self _ _), ?_⟩
        intro o ho
        have hos : o ∈ sorted := (hperm o).2 ho
        rw [hs] at hos
        rcases List.mem_cons.1 hos with rfl | hor
        · exact le_of_eq (compareMonthKey_refl o)
        · have := hp.1 o hor
          simpa using this
  · have e1 : compareMonthKey "01/2024" "04/2024" ≤ 0 := by decide
    have e2 : compareMonthKey "01/2024" "09/2024" ≤ 0 := by decide
    have e3 : compareMonthKey "04/2024" "09/2024" ≤ 0 := by decide
    have e4 : ¬ compareMonthKey "09/2024" "06/2024" ≤ 0 := by decide
    have e5 : compareMonthKey "04/2024" "06/2024" ≤ 0 := by decide
    simp [clampMonthKeyToOptions, List.mergeSort, List.merge, e1, e2, e3, e4, e5]
  · have e6 : ¬ compareMonthKey "01/2024" "12/2020" ≤ 0 := by decide
    simp [clampMonthKeyToOptions, List.mergeSort, List.merge, e6]

/-- Witness for C6 applying the general part at the first concrete example:
`"06/2024"` is absent from the options and `"04/2024"` is the latest option
at or before it. -/
theorem c6_clampMonthKeyToOptions_witness :
    clampMonthKeyToOptions "06/2024" ["01/2024", "04/2024", "09/2024"]
        ∈ ["01/2024", "04/2024", "09/2024"] ∧
    compareMonthKey (clampMonthKeyToOptions "06/2024" ["01/2024", "04/2024", "09/2024"])
        "06/2024" ≤ 0 ∧
    (∀ o ∈ ["01/2024", "04/2024", "09/2024"], compareMonthKey o "06/2024" ≤ 0 →
      compareMonthKey o
        (clampMonthKeyToOptions "06/2024" ["01/2024", "04/2024", "09/2024"]) ≤ 0) :=
  ((c6_clampMonthKeyToOptions.1 "06/2024" ["01/2024", "04/2024", "09/2024"]
      (by decide) (by decide) (by decide)).2.1
    ⟨"01/2024", by decide, by decide⟩)

/-! ### Claim C5: `parseInputDate` calendar validation -/

theorem daysInMonth_bounds (y : ℤ) (m : Nat) :
    28 ≤ daysInMonth y m ∧ daysInMonth y m ≤ 31 := by
  rw [daysInMonth]
  split_ifs <;> omega

theorem normDayGo_spec (fuel : Nat) : ∀ (y : ℤ) (m d : Nat), 1 ≤ m → m ≤ 12 →
    (1 ≤ (normDayGo fuel y m d).2.1 ∧ (normDayGo fuel y m d).2.1 ≤ 12) ∧
    y ≤ (normDayGo fuel y m d).1 ∧
    y * 12 + (m : ℤ) ≤ (normDayGo fuel y m d).1 * 12 + ((normDayGo fuel y m d).2.1 : ℤ) := by
  induction fuel with
  | zero =>
    intro y m d h1 h2
    exact ⟨⟨h1, h2⟩, le_rfl, le_rfl⟩
  | succ f ih =>
    intro y m d h1 h2
    rw [normDayGo]
    by_cases hd : daysInMonth y m < d
    · rw [if_pos hd]
      by_cases hm : m = 12
      · rw [if_pos hm]
        obtain ⟨hb, hy, habs⟩ := ih (y + 1) 1 (d - 31) (by omega) (by omega)
        refine ⟨hb, by omega, ?_⟩
        have : y * 12 + (m : ℤ) < (y + 1) * 12 + (1 : ℤ) := by
          subst hm
          push_cast
          ring_nf
          omega
        omega
      · rw [if_neg hm]
        obtain ⟨hb, hy, habs⟩ := ih y (m + 1) (d - daysInMonth y m) (by omega) (by omega)
        refine ⟨hb, hy, ?_⟩
        have : y * 12 + (m : ℤ) < y * 12 + ((m : ℤ) + 1) := by omega
        push_cast at habs ⊢
        omega
    · rw [if_neg hd]
      exact ⟨⟨h1, h2⟩, le_rfl, le_rfl⟩

theorem normDayGo_strict {fuel : Nat} (y : ℤ) (m d : Nat) (h1 : 1 ≤ m) (h2 : m ≤ 12)
    (hd : daysInMonth y m < d) (hf : 1 ≤ fuel) :
    y * 12 + (m : ℤ) < (normDayGo fuel y m d).1 * 12 + ((normDayGo fuel y m d).2.1 : ℤ) := by
  obtain ⟨f, rfl⟩ : ∃ f, fuel = f + 1 := ⟨fuel - 1, by omega⟩
  rw [normDayGo, if_pos hd]
  by_cases hm : m = 12
  · rw [if_pos hm]
    obtain ⟨_, _, habs⟩ := normDayGo_spec f (y + 1) 1 (d - 31) (by omega) (by omega)
    have : y * 12 + (m : ℤ) < (y + 1) * 12 + (1 : ℤ) := by
      subst hm
      push_cast
      omega
    omega
  · rw [if_neg hm]
    obtain ⟨_, _, habs⟩ := normDayGo_spec f y (m + 1) (d - daysInMonth y m) (by omega) (by omega)
    push_cast at habs ⊢
    omega

theorem normDayGo_id (fuel : Nat) (y : ℤ) (m d : Nat) (h : d ≤ daysInMonth y m) :
    normDayGo fuel y m d = (y, m, d) := by
  cases fuel with
  | zero => rfl
  | succ f => rw [normDayGo, if_neg (by omega)]


theorem utcNormalize_std {yyyy mm dd : Nat} (hy : 100 ≤ yyyy) (hm1 : 1 ≤ mm)
    (hm2 : mm ≤ 12) (hdd : 1 ≤ dd) :
    utcNormalize yyyy mm dd = normDayGo dd (yyyy : ℤ) mm dd := by
  have hadj : jsYearAdj (yyyy : ℤ) = (yyyy : ℤ) := by
    rw [jsYearAdj, if_neg]
    omega
  have hdiv : ((mm : ℤ) - 1) / 12 = 0 := Int.ediv_eq_zero_of_lt (by omega) (by omega)
  have hmod : ((mm : ℤ) - 1) % 12 = (mm : ℤ) - 1 := Int.emod_eq_of_lt (by omega) (by omega)
  rw [utcNormalize]
  simp only [hadj, hdiv, hmod, add_zero]
  rw [if_neg (by omega : ¬ dd = 0)]
  have htn : ((mm : ℤ) - 1).toNat + 1 = mm := by omega
  rw [htn]

theorem utcNormalize_month_bounds (yyyy mm dd : Nat) :
    1 ≤ (utcNormalize yyyy mm dd).2.1 ∧ (utcNormalize yyyy mm dd).2.1 ≤ 12 := by
  have hmodlo : 0 ≤ ((mm : ℤ) - 1) % 12 := Int.emod_nonneg _ (by norm_num)
  have hmodhi : ((mm : ℤ) - 1) % 12 < 12 := Int.emod_lt_of_pos _ (by norm_num)
  simp only [utcNormalize]
  by_cases hddz : dd = 0
  · rw [if_pos hddz]
    by_cases hone : (((mm : ℤ) - 1) % 12).toNat + 1 = 1
    · rw [if_pos hone]
      exact ⟨by norm_num, by norm_num⟩
    · rw [if_neg hone]
      constructor
      · simp only
        omega
      · simp only
        omega
  · rw [if_neg hddz]
    obtain ⟨hb, _, _⟩ := normDayGo_spec dd (jsYearAdj (yyyy : ℤ) + ((mm : ℤ) - 1) / 12)
      ((((mm : ℤ) - 1) % 12).toNat + 1) dd (by omega) (by omega)
    exact hb

theorem utcNormalize_year_ge (yyyy mm dd : Nat) :
    jsYearAdj (yyyy : ℤ) + ((mm : ℤ) - 1) / 12 - 1 ≤ (utcNormalize yyyy mm dd).1 := by
  have hmodlo : 0 ≤ ((mm : ℤ) - 1) % 12 := Int.emod_nonneg _ (by norm_num)
  have hmodhi : ((mm : ℤ) - 1) % 12 < 12 := Int.emod_lt_of_pos _ (by norm_num)
  simp only [utcNormalize]
  by_cases hddz : dd = 0
  · rw [if_pos hddz]
    by_cases hone : (((mm : ℤ) - 1) % 12).toNat + 1 = 1
    · rw [if_pos hone]
    · rw [if_neg hone]
      simp only
      omega
  · rw [if_neg hddz]
    obtain ⟨_, hy, _⟩ := normDayGo_spec dd (jsYearAdj (yyyy : ℤ) + ((mm : ℤ) - 1) / 12)
      ((((mm : ℤ) - 1) % 12).toNat + 1) dd (by omega) (by omega)
    omega

theorem utcRoundtripOk_valid {yyyy mm dd : Nat} (hy : 100 ≤ yyyy)
    (hv : validCivil (yyyy : ℤ) mm dd = true) : utcRoundtripOk yyyy mm dd = true := by
  rw [validCivil, decide_eq_true_eq] at hv
  obtain ⟨h1, h2, h3, h4⟩ := hv
  rw [utcRoundtripOk, utcNormalize_std hy h1 h2 h3, normDayGo_id dd (yyyy : ℤ) mm dd h4]
  simp

theorem utcRoundtripOk_invalid {yyyy mm dd : Nat} (hm99 : mm ≤ 99) (hd99 : dd ≤ 99)
    (hv : validCivil (yyyy : ℤ) mm dd = false) : utcRoundtripOk yyyy mm dd = false := by
  rw [validCivil, decide_eq_false_iff_not] at hv
  rw [utcRoundtripOk, decide_eq_false_iff_not]
  intro hcheck
  obtain ⟨hY, hM, hD⟩ := hcheck
  by_cases hy99 : yyyy ≤ 99
  · have hadj : jsYearAdj (yyyy : ℤ) = 1900 + (yyyy : ℤ) := by
      rw [jsYearAdj, if_pos]
      refine ⟨by positivity, by omega⟩
    have hdivlo : (-1 : ℤ) ≤ ((mm : ℤ) - 1) / 12 := by
      have h12 : (-12 : ℤ) ≤ (mm : ℤ) - 1 := by omega
      have := Int.ediv_le_ediv (by norm_num : (0 : ℤ) < 12) h12
      simpa using this
    have := utcNormalize_year_ge yyyy mm dd
    rw [hadj, hY] at this
    omega
  · by_cases hmr : 1 ≤ mm ∧ mm ≤ 12
    · obtain ⟨hm1, hm2⟩ := hmr
      by_cases hddz : dd = 0
      · have hadj : jsYearAdj (yyyy : ℤ) = (yyyy : ℤ) := by
          rw [jsYearAdj, if_neg]
          omega
        have hdiv : ((mm : ℤ) - 1) / 12 = 0 := Int.ediv_eq_zero_of_lt (by omega) (by omega)
        have hmod : ((mm : ℤ) - 1) % 12 = (mm : ℤ) - 1 := Int.emod_eq_of_lt (by omega) (by omega)
        have htn : ((mm : ℤ) - 1).toNat + 1 = mm := by omega
        have hDval : 28 ≤ (utcNormalize yyyy mm dd).2.2 := by
          simp only [utcNormalize, hadj, hdiv, hmod, add_zero, htn]
          rw [if_pos hddz]
          by_cases hone : mm = 1
          · rw [if_pos hone]
            norm_num
          · rw [if_neg hone]
            simpa using (daysInMonth_bounds (yyyy : ℤ) (mm - 1)).1
        omega
      · have hdim : daysInMonth (yyyy : ℤ) mm < dd := by
          rcases Nat.lt_or_ge (daysInMonth (yyyy : ℤ) mm) dd with h | h
          · exact h
          · exact absurd ⟨hm1, hm2, by omega, h⟩ hv
        have habs := @normDayGo_strict dd (yyyy : ℤ) mm dd hm1 hm2 hdim (by omega)
        rw [← utcNormalize_std (by omega) hm1 hm2 (by omega)] at habs
        have hMeq : ((utcNormalize yyyy mm dd).2.1 : ℤ) = (mm : ℤ) := by omega
        rw [hY, hMeq] at habs
        omega
    · have hmb := utcNormalize_month_bounds yyyy mm dd
      have : (mm : ℤ) = ((utcNormalize yyyy mm dd).2.1 : ℤ) := by omega
      exact hmr (by omega)

theorem digitsToNat_quad_le {a b c d : Char} (ha : isDig a = true) (hb : isDig b = true)
    (hc : isDig c = true) (hd : isDig d = true) : digitsToNat [a, b, c, d] ≤ 9999 := by
  have h1 := digToNat_lt ha
  have h2 := digToNat_lt hb
  have h3 := digToNat_lt hc
  have h4 := digToNat_lt hd
  simp only [digitsToNat, List.foldl_cons, List.foldl_nil]
  omega

theorem shapeDMY_inv {sep : Char} {t : List Char} {dd mm yyyy : Nat}
    (h : shapeDMY sep t = some (dd, mm, yyyy)) :
    ∃ d1 d2 m1 m2 y1 y2 y3 y4,
      t = [d1, d2, sep, m1, m2, sep, y1, y2, y3, y4] ∧
      isDig d1 = true ∧ isDig d2 = true ∧ isDig m1 = true ∧ isDig m2 = true ∧
      isDig y1 = true ∧ isDig y2 = true ∧ isDig y3 = true ∧ isDig y4 = true ∧
      dd = digitsToNat [d1, d2] ∧ mm = digitsToNat [m1, m2] ∧
      yyyy = digitsToNat [y1, y2, y3, y4] := by
  unfold shapeDMY at h
  split at h
  case h_1 d1 d2 s1 m1 m2 s2 y1 y2 y3 y4 =>
    split at h
    case isTrue hg =>
      simp only [Bool.and_eq_true, decide_eq_true_eq] at hg
      obtain ⟨⟨⟨⟨⟨⟨⟨⟨⟨hs1, hs2⟩, hd1⟩, hd2⟩, hm1⟩, hm2⟩, hy1⟩, hy2⟩, hy3⟩, hy4⟩ := hg
      subst hs1
      subst hs2
      rw [Option.some.injEq, Prod.mk.injEq, Prod.mk.injEq] at h
      obtain ⟨h1, h2, h3⟩ := h
      exact ⟨d1, d2, m1, m2, y1, y2, y3, y4, rfl, hd1, hd2, hm1, hm2, hy1, hy2, hy3, hy4,
        h1.symm, h2.symm, h3.symm⟩
    case isFalse => exact absurd h (by simp)
  case h_2 => exact absurd h (by simp)

theorem shapeISO_inv {t : List Char} {yyyy mm dd : Nat}
    (h : shapeISO t = some (yyyy, mm, dd)) :
    ∃ y1 y2 y3 y4 m1 m2 d1 d2,
      t = [y1, y2, y3, y4, '-', m1, m2, '-', d1, d2] ∧
      isDig y1 = true ∧ isDig y2 = true ∧ isDig y3 = true ∧ isDig y4 = true ∧
      isDig m1 = true ∧ isDig m2 = true ∧ isDig d1 = true ∧ isDig d2 = true ∧
      yyyy = digitsToNat [y1, y2, y3, y4] ∧ mm = digitsToNat [m1, m2] ∧
      dd = digitsToNat [d1, d2] := by
  unfold shapeISO at h
  split at h
  case h_1 y1 y2 y3 y4 m1 m2 d1 d2 =>
    split at h
    case isTrue hg =>
      simp only [Bool.and_eq_true] at hg
      obtain ⟨⟨⟨⟨⟨⟨⟨hy1, hy2⟩, hy3⟩, hy4⟩, hm1⟩, hm2⟩, hd1⟩, hd2⟩ := hg
      rw [Option.some.injEq, Prod.mk.injEq, Prod.mk.injEq] at h
      obtain ⟨h1, h2, h3⟩ := h
      exact ⟨y1, y2, y3, y4, m1, m2, d1, d2, rfl, hy1, hy2, hy3, hy4, hm1, hm2, hd1, hd2,
        h1.symm, h2.symm, h3.symm⟩
    case isFalse => exact absurd h (by simp)
  case h_2 => exact absurd h (by simp)

theorem shapeDMY_slash_dash {t : List Char} {x y : Nat × Nat × Nat}
    (hx : shapeDMY '/' t = some x) (hy : shapeDMY '-' t = some y) : False := by
  obtain ⟨x1, x2, x3⟩ := x
  obtain ⟨y1, y2, y3⟩ := y
  obtain ⟨d1, d2, m1, m2, a1, a2, a3, a4, ht, _⟩ := shapeDMY_inv hx
  obtain ⟨e1, e2, n1, n2, b1, b2, b3, b4, ht2, _⟩ := shapeDMY_inv hy
  rw [ht] at ht2
  simp only [List.cons.injEq] at ht2
  exact absurd ht2.2.2.1 (by decide)

theorem shapeDMY_ISO_disjoint {sep : Char} {t : List Char} {x y : Nat × Nat × Nat}
    (hsep : isDig sep = false) (hx : shapeDMY sep t = some x) (hy : shapeISO t = some y) :
    False := by
  obtain ⟨x1, x2, x3⟩ := x
  obtain ⟨y1, y2, y3⟩ := y
  obtain ⟨d1, d2, m1, m2, a1, a2, a3, a4, ht, _, _, _, _, _, _, _, _, _⟩ := shapeDMY_inv hx
  obtain ⟨b1, b2, b3, b4, n1, n2, e1, e2, ht2, _, _, hb3, _⟩ := shapeISO_inv hy
  rw [ht] at ht2
  simp only [List.cons.injEq] at ht2
  obtain ⟨_, _, hsepb3, _⟩ := ht2
  rw [hsepb3, hb3] at hsep
  simp at hsep

/-- Claim C5: any input in one of the three accepted shapes whose
components do not form a real calendar date parses to `null`, and any
input matching none of the three shapes parses to `null`; in particular
`"31-02-2024"` is rejected. -/
theorem c5_parseInputDate :
    (∀ s : String,
      (∀ dd mm yyyy, shapeDMY '/' (trimChars s.data) = some (dd, mm, yyyy) →
        validCivil (yyyy : ℤ) mm dd = false → parseInputDate s = none) ∧
      (∀ dd mm yyyy, shapeDMY '-' (trimChars s.data) = some (dd, mm, yyyy) →
        validCivil (yyyy : ℤ) mm dd = false → parseInputDate s = none) ∧
      (∀ yyyy mm dd, shapeISO (trimChars s.data) = some (yyyy, mm, dd) →
        validCivil (yyyy : ℤ) mm dd = false → parseInputDate s = none) ∧
      (shapeDMY '/' (trimChars s.data) = none → shapeDMY '-' (trimChars s.data) = none →
        shapeISO (trimChars s.data) = none → parseInputDate s = none)) ∧
    parseInputDate "31-02-2024" = none := by
  constructor
  · intro s
    refine ⟨?_, ?_, ?_, ?_⟩
    · intro dd mm yyyy h hv
      obtain ⟨d1, d2, m1, m2, a1, a2, a3, a4, _, hd1, hd2, hm1, hm2, _, _, _, _,
        hdv, hmv, _⟩ := shapeDMY_inv h
      have hro : utcRoundtripOk yyyy mm dd = false :=
        utcRoundtripOk_invalid (hmv ▸ digitsToNat_pair_le hm1 hm2)
          (hdv ▸ digitsToNat_pair_le hd1 hd2) hv
      simp only [parseInputDate]
      rw [h]
      simp [hro]
    · intro dd mm yyyy h hv
      have hslash : shapeDMY '/' (trimChars s.data) = none := by
        cases hs : shapeDMY '/' (trimChars s.data) with
        | none => rfl
        | some x => exact absurd (shapeDMY_slash_dash hs h) not_false
      obtain ⟨d1, d2, m1, m2, a1, a2, a3, a4, _, hd1, hd2, hm1, hm2, _, _, _, _,
        hdv, hmv, _⟩ := shapeDMY_inv h
      have hro : utcRoundtripOk yyyy mm dd = false :=
        utcRoundtripOk_invalid (hmv ▸ digitsToNat_pair_le hm1 hm2)
          (hdv ▸ digitsToNat_pair_le hd1 hd2) hv
      simp only [parseInputDate]
      rw [hslash]
      simp only
      rw [h]
      simp [hro]
    · intro yyyy mm dd h hv
      have hslash : shapeDMY '/' (trimChars s.data) = none := by
        cases hs : shapeDMY '/' (trimChars s.data) with
        | none => rfl
        | some x => exact absurd (shapeDMY_ISO_disjoint (by decide) hs h) not_false
      have hdash : shapeDMY '-' (trimChars s.data) = none := by
        cases hs : shapeDMY '-' (trimChars s.data) with
        | none => rfl
        | some x => exact absurd (shapeDMY_ISO_disjoint (by decide) hs h) not_false
      simp only [parseInputDate]
      rw [hslash]
      simp only
      rw [hdash]
      simp only
      rw [h]
      simp only
      rw [parseISOKey]
      have hmkdata : (String.mk (trimChars s.data)).data = trimChars s.data := rfl
      rw [hmkdata, h]
      simp [hv]
    · intro h1 h2 h3
      simp only [parseInputDate]
      rw [h1]
      simp only
      rw [h2]
      simp only
      rw [h3]
  · decide

/-- Witness for C5 at the concrete input `"31-02-2024"` (February has no
day 31). -/
theorem c5_parseInputDate_witness : parseInputDate "31-02-2024" = none :=
  (c5_parseInputDate.1 "31-02-2024").2.1 31 2 2024 (by decide) (by decide)

/-! ### Claim C3: `csvParseDaily` partial success -/

theorem rowError_none_of_record {i : Nat} {r : List String} {v : String × ℚ}
    (h : rowRecord r = some v) : rowError i r = none := by
  rw [rowRecord] at h
  rw [rowError]
  cases hp : parseInputDate (r.headD "") with
  | none => rw [hp] at h; simp at h
  | some d =>
    rw [hp] at h
    simp only at h ⊢
    cases hn : jsNumber (stripCommas (r.getD 1 "")) with
    | none => rw [hn] at h; simp at h
    | some q => rfl

theorem rowError_some_of_no_record {i : Nat} {r : List String}
    (h : rowRecord r = none) : ∃ msg, rowError i r = some msg := by
  rw [rowRecord] at h
  rw [rowError]
  cases hp : parseInputDate (r.headD "") with
  | none => exact ⟨_, rfl⟩
  | some d =>
    rw [hp] at h
    simp only at h ⊢
    cases hn : jsNumber (stripCommas (r.getD 1 "")) with
    | none => exact ⟨_, rfl⟩
    | some q => rw [hn] at h; simp at h

theorem processRowsGo_spec : ∀ (rows : List (List String)) (i : Nat),
    (processRowsGo i rows).1 = rows.filterMap rowRecord ∧
    (processRowsGo i rows).2 = (List.enumFrom i rows).filterMap
      (fun p => rowError p.1 p.2) := by
  intro rows
  induction rows with
  | nil => intro i; exact ⟨rfl, rfl⟩
  | cons r rest ih =>
    intro i
    obtain ⟨ih1, ih2⟩ := ih (i + 1)
    cases hr : rowRecord r with
    | some v =>
      have he : rowError i r = none := rowError_none_of_record hr
      constructor
      · simp [processRowsGo, hr, List.filterMap_cons, ih1]
      · simp [processRowsGo, hr, List.enumFrom, List.filterMap_cons, he, ih2]
    | none =>
      obtain ⟨msg, he⟩ := rowError_some_of_no_record (i := i) hr
      constructor
      · simp [processRowsGo, hr, he, List.filterMap_cons, ih1]
      · simp [processRowsGo, hr, he, List.enumFrom, List.filterMap_cons, ih2]

/-- Claim C3: `csvParseDaily` keeps exactly the rows whose date parses and
whose comma-stripped value is a finite number, and produces exactly one
indexed error message for each failing row (`rowRecord` and `rowError`
name the two outcomes of a row); on the spec input the result is the
single record `2025-12-18 -> 261.72` with errors for rows 2 and 3. -/
theorem c3_csvParseDaily :
    (∀ text : String,
      (csvParseDaily text).1 = (csvRows text).filterMap rowRecord ∧
      (csvParseDaily text).2 = (csvRows text).enum.filterMap
        (fun p => rowError p.1 p.2)) ∧
    csvParseDaily "date,V\n18/12/2025,261.72\nbad,oops\n20/13/2025,5" =
      ([("2025-12-18", 261.72)],
        ["Row 2: invalid date " ++ quoteCh ++ "bad" ++ quoteCh ++ " (expected DD/MM/YYYY)",
          "Row 3: invalid date " ++ quoteCh ++ "20/13/2025" ++ quoteCh ++
            " (expected DD/MM/YYYY)"]) := by
  constructor
  · intro text
    exact processRowsGo_spec (csvRows text) 0
  · have hparsed : (csvParseDaily "date,V\n18/12/2025,261.72\nbad,oops\n20/13/2025,5").1
        = [("2025-12-18", numValue ⟨false, ['2', '6', '1'], ['7', '2'], 0⟩)] := by rfl
    have herrs : (csvParseDaily "date,V\n18/12/2025,261.72\nbad,oops\n20/13/2025,5").2
        = ["Row 2: invalid date " ++ quoteCh ++ "bad" ++ quoteCh ++ " (expected DD/MM/YYYY)",
           "Row 3: invalid date " ++ quoteCh ++ "20/13/2025" ++ quoteCh ++
             " (expected DD/MM/YYYY)"] := by decide
    have hval : numValue ⟨false, ['2', '6', '1'], ['7', '2'], 0⟩ = 261.72 := by
      have h1 : digitsToNat ['2', '6', '1'] = 261 := by decide
      have h2 : digitsToNat ['7', '2'] = 72 := by decide
      rw [numValue]
      simp only [h1, h2]
      norm_num
    refine Prod.ext ?_ ?_
    · rw [hparsed, hval]
    · rw [herrs]

/-! ### Claim C9: short rows are silently discarded -/

/-- Claim C9: a non-blank line with fewer than two comma cells is dropped
before row processing — two texts whose kept line lists differ only by such
a line parse identically (same records, same errors, same indices, which
therefore count kept rows, not file lines) — and on
`"justone\nbad,oops"` the bad row in file line 2 is reported as `Row 1`. -/
theorem c9_csvParseDaily_short_rows :
    (∀ (t1 t2 : String) (l1 l2 : List (List Char)) (bad : List Char),
      ((splitOn '\n' t1.data).map trimChars).filter (fun l => l ≠ []) = l1 ++ bad :: l2 →
      ((splitOn '\n' t2.data).map trimChars).filter (fun l => l ≠ []) = l1 ++ l2 →
      (csvCells bad).length < 2 →
      csvParseDaily t1 = csvParseDaily t2) ∧
    csvParseDaily "justone\nbad,oops" =
      ([], ["Row 1: invalid date " ++ quoteCh ++ "bad" ++ quoteCh ++
        " (expected DD/MM/YYYY)"]) := by
  constructor
  · intro t1 t2 l1 l2 bad h1 h2 hbad
    have hrows : csvRowsAll t1 = csvRowsAll t2 := by
      rw [csvRowsAll, csvRowsAll, h1, h2]
      have hb : decide (2 ≤ (csvCells bad).length) = false :=
        decide_eq_false_iff_not.2 (by omega)
      rw [List.map_append, List.map_cons, List.filter_append, List.filter_cons]
      rw [List.map_append, List.filter_append]
      simp [hb]
    rw [csvParseDaily, csvParseDaily, csvRows, csvRows, hrows]
  · decide

/-- Witness for C9: deleting the one-cell line `justone` from the text
leaves `csvParseDaily` output unchanged. -/
theorem c9_csvParseDaily_short_rows_witness :
    csvParseDaily "justone\nbad,oops" = csvParseDaily "bad,oops" :=
  c9_csvParseDaily_short_rows.1 "justone\nbad,oops" "bad,oops"
    [] [['b', 'a', 'd', ',', 'o', 'o', 'p', 's']] "justone".data
    (by decide) (by decide) (by decide)

/-! ### Claim C4: the daily chart and year-over-year lookups -/

theorem chartLoop_points (look : String → Option ℚ) (t : String) :
    ∀ (fuel : Nat) (cur : String) (out : List ChartPoint),
      ∀ p ∈ chartLoop look t fuel cur out,
        p ∈ out ∨ ∃ D v, look D = some v ∧ p = mkChartPoint look D v := by
  intro fuel
  induction fuel with
  | zero => intro cur out p hp; exact Or.inl hp
  | succ f ih =>
    intro cur out p hp
    rw [chartLoop] at hp
    by_cases hle : strLe cur t
    · rw [if_pos hle] at hp
      cases hl : look cur with
      | none =>
        rw [hl] at hp
        simp only at hp
        by_cases hlen : 5000 < out.length
        · rw [if_pos hlen] at hp
          exact Or.inl hp
        · rw [if_neg hlen] at hp
          exact ih _ _ p hp
      | some v =>
        rw [hl] at hp
        simp only at hp
        by_cases hlen : 5000 < (out ++ [mkChartPoint look cur v]).length
        · rw [if_pos hlen] at hp
          rcases List.mem_append.1 hp with h | h
          · exact Or.inl h
          · exact Or.inr ⟨cur, v, hl, List.mem_singleton.1 h⟩
        · rw [if_neg hlen] at hp
          rcases ih _ _ p hp with h | h
          · rcases List.mem_append.1 h with h' | h'
            · exact Or.inl h'
            · exact Or.inr ⟨cur, v, hl, List.mem_singleton.1 h'⟩
          · exact Or.inr h
    · rw [if_neg hle] at hp
      exact Or.inl hp

/-- Claim C4 as amended: every point of the daily chart at a date `D`
carries `prev_year_units = lookup (jsPrevYearKey D)` — the key built from
`Number(D.slice(0, 4)) - 1` without zero padding, which coincides with the
zero-padded year-decremented ISO key exactly when the year component is at
least 1001 — and `yoy_pct` is `null` when the prior-year record is missing
or zero and `(curr - prev) / prev * 100` otherwise (never a division by
zero). -/
theorem c4_dailyChart_yoy_amended :
    (∀ (m : List (String × ℚ)) (fromIso toIso : String) (fuel : Nat),
      ∀ p ∈ dailyChart m fromIso toIso fuel,
        ∃ D, lookupRec m D = some p.units ∧
          p.prev_year_units = lookupRec m (jsPrevYearKey D) ∧
          (∀ pv, p.prev_year_units = some pv → pv ≠ 0 →
            p.yoy_pct = some ((p.units - pv) / pv * 100)) ∧
          ((p.prev_year_units = none ∨ p.prev_year_units = some 0) →
            p.yoy_pct = none)) ∧
    (∀ D : String, (D.data.take 4).length = 4 → (D.data.take 4).all isDig = true →
      1001 ≤ digitsToNat (D.data.take 4) → jsPrevYearKey D = specYearDecrementKey D) := by
  constructor
  · intro m fromIso toIso fuel p hp
    rw [dailyChart] at hp
    rcases chartLoop_points (lookupRec m) _ fuel _ [] p hp with h | ⟨D, v, hD, hpD⟩
    · simp at h
    · refine ⟨D, ?_, ?_, ?_, ?_⟩
      · rw [hpD]
        exact hD
      · rw [hpD]
        rfl
      · intro pv hpv hpv0
        rw [hpD] at hpv ⊢
        rw [mkChartPoint] at hpv
        simp only at hpv
        rw [mkChartPoint]
        simp only [hpv]
        rw [growthPct, safeDiv, if_neg hpv0]
      · intro hor
        rw [hpD] at hor ⊢
        rw [mkChartPoint] at hor
        simp only at hor
        rw [mkChartPoint]
        rcases hor with hnone | hzero
        · simp only [hnone]
        · simp only [hzero]
          rw [growthPct, safeDiv, if_pos rfl]
  · intro D hlen hdig hge
    have hne : D.data.take 4 ≠ [] := by
      intro h
      rw [h] at hlen
      simp at hlen
    rw [jsPrevYearKey, specYearDecrementKey]
    simp only [if_neg hne, hdig, hlen]
    rw [if_pos (by simp [hdig])]
    have hsub : ((digitsToNat (D.data.take 4) : ℤ) - 1).natAbs
        = digitsToNat (D.data.take 4) - 1 := by omega
    have hnonneg : ¬ ((digitsToNat (D.data.take 4) : ℤ) - 1 < 0) := by omega
    rw [intStr, if_neg hnonneg, hsub]
    have hpad : pad4 (digitsToNat (D.data.take 4) - 1)
        = decimalStr (digitsToNat (D.data.take 4) - 1) := by
      rw [pad4, if_neg (by omega), if_neg (by omega), if_neg (by omega)]
    rw [hpad]
    simp

/-- Claim C4, counterexample to the claim as stated: with records at
`0999-01-02` and `1000-01-02`, the chart point for `1000-01-02` has
`prev_year_units = null` although a record exists at the year-decremented
ISO date `0999-01-02` — the code looks up the unpadded key `999-01-02`. -/
theorem c4_dailyChart_yoy_counterexample :
    dailyChart [("0999-01-02", (1 : ℚ)), ("1000-01-02", 2)] "1000-01-02" "1000-01-02" 2
      = [mkChartPoint (lookupRec [("0999-01-02", (1 : ℚ)), ("1000-01-02", 2)])
          "1000-01-02" 2] ∧
    specYearDecrementKey "1000-01-02" = "0999-01-02" ∧
    lookupRec [("0999-01-02", (1 : ℚ)), ("1000-01-02", 2)] "0999-01-02" = some 1 ∧
    jsPrevYearKey "1000-01-02" = "999-01-02" ∧
    (mkChartPoint (lookupRec [("0999-01-02", (1 : ℚ)), ("1000-01-02", 2)])
        "1000-01-02" 2).prev_year_units = none := by
  refine ⟨rfl, by decide, rfl, by decide, rfl⟩

/-- Witness for the amended C4 at the spec example: records
`2025-12-20 -> 260.95` and `2024-12-20 -> 250`. -/
theorem c4_dailyChart_yoy_amended_witness :
    ∃ D, lookupRec [("2025-12-20", (260.95 : ℚ)), ("2024-12-20", 250)] D
        = some (mkChartPoint
            (lookupRec [("2025-12-20", (260.95 : ℚ)), ("2024-12-20", 250)])
            "2025-12-20" 260.95).units ∧
      (mkChartPoint (lookupRec [("2025-12-20", (260.95 : ℚ)), ("2024-12-20", 250)])
          "2025-12-20" 260.95).prev_year_units
        = lookupRec [("2025-12-20", (260.95 : ℚ)), ("2024-12-20", 250)]
            (jsPrevYearKey D) ∧
      (∀ pv, (mkChartPoint (lookupRec [("2025-12-20", (260.95 : ℚ)), ("2024-12-20", 250)])
          "2025-12-20" 260.95).prev_year_units = some pv → pv ≠ 0 →
        (mkChartPoint (lookupRec [("2025-12-20", (260.95 : ℚ)), ("2024-12-20", 250)])
            "2025-12-20" 260.95).yoy_pct
          = some (((mkChartPoint (lookupRec [("2025-12-20", (260.95 : ℚ)),
              ("2024-12-20", 250)]) "2025-12-20" 260.95).units - pv) / pv * 100)) ∧
      (((mkChartPoint (lookupRec [("2025-12-20", (260.95 : ℚ)), ("2024-12-20", 250)])
          "2025-12-20" 260.95).prev_year_units = none ∨
        (mkChartPoint (lookupRec [("2025-12-20", (260.95 : ℚ)), ("2024-12-20", 250)])
            "2025-12-20" 260.95).prev_year_units = some 0) →
        (mkChartPoint (lookupRec [("2025-12-20", (260.95 : ℚ)), ("2024-12-20", 250)])
            "2025-12-20" 260.95).yoy_pct = none) := by
  have hch : dailyChart [("2025-12-20", (260.95 : ℚ)), ("2024-12-20", 250)]
      "2025-12-20" "2025-12-20" 2
      = [mkChartPoint (lookupRec [("2025-12-20", (260.95 : ℚ)), ("2024-12-20", 250)])
          "2025-12-20" 260.95] := rfl
  exact c4_dailyChart_yoy_amended.1 [("2025-12-20", (260.95 : ℚ)), ("2024-12-20", 250)]
    "2025-12-20" "2025-12-20" 2
    (mkChartPoint (lookupRec [("2025-12-20", (260.95 : ℚ)), ("2024-12-20", 250)])
      "2025-12-20" 260.95)
    (by rw [hch]; exact List.mem_singleton_self _)

/-! ### Claim C7: export/import round trip — string infrastructure -/

theorem span_loop_spec (p : Char → Bool) : ∀ (l acc : List Char),
    List.span.loop p l acc = (acc.reverse ++ l.takeWhile p, l.dropWhile p) := by
  intro l
  induction l with
  | nil => intro acc; simp [List.span.loop]
  | cons a as ih =>
    intro acc
    rw [List.span.loop]
    cases hpa : p a with
    | true =>
      simp only [ih (a :: acc), List.takeWhile_cons, List.dropWhile_cons, hpa]
      simp
    | false => simp [List.takeWhile_cons, List.dropWhile_cons, hpa]

theorem span_eq (p : Char → Bool) (l : List Char) :
    l.span p = (l.takeWhile p, l.dropWhile p) := by
  rw [List.span, span_loop_spec]
  simp

theorem span_all_sat (p : Char → Bool) (xs : List Char) (hx : ∀ c ∈ xs, p c = true) :
    xs.span p = (xs, []) := by
  rw [span_eq, List.takeWhile_eq_self_iff.2 hx]
  have : xs.dropWhile p = [] := by
    induction xs with
    | nil => rfl
    | cons a as ih =>
      rw [List.dropWhile_cons, if_pos (hx a (List.mem_cons_self _ _))]
      exact ih (fun c hc => hx c (List.mem_cons_of_mem _ hc))
  rw [this]

theorem span_sat_prefix (p : Char → Bool) (xs : List Char) (c : Char) (ys : List Char)
    (hx : ∀ x ∈ xs, p x = true) (hc : p c = false) :
    (xs ++ c :: ys).span p = (xs, c :: ys) := by
  rw [span_eq, Prod.mk.injEq]
  constructor
  · rw [List.takeWhile_append]
    rw [List.takeWhile_eq_self_iff.2 hx]
    simp [List.takeWhile_cons, hc]
  · induction xs with
    | nil => simp [List.dropWhile_cons, hc]
    | cons a as ih =>
      rw [List.cons_append, List.dropWhile_cons, if_pos (hx a (List.mem_cons_self _ _))]
      exact ih (fun x hx2 => hx x (List.mem_cons_of_mem _ hx2))

theorem splitOn_ne_nil (sep : Char) (l : List Char) : splitOn sep l ≠ [] := by
  induction l with
  | nil => simp [splitOn]
  | cons c cs ih =>
    rw [splitOn]
    by_cases hc : c = sep
    · simp [hc]
    · rw [if_neg hc]
      rcases hs : splitOn sep cs with _ | ⟨h, t⟩
      · simp
      · simp

theorem splitOn_no_sep (sep : Char) (l : List Char) (h : sep ∉ l) :
    splitOn sep l = [l] := by
  induction l with
  | nil => rfl
  | cons c cs ih =>
    have hc : ¬ c = sep := fun hcs => h (hcs ▸ List.mem_cons_self _ _)
    rw [splitOn, if_neg hc, ih (fun hm => h (List.mem_cons_of_mem _ hm))]

theorem splitOn_sep_cons (sep : Char) (a b : List Char) (ha : sep ∉ a) :
    splitOn sep (a ++ sep :: b) = a :: splitOn sep b := by
  induction a with
  | nil => simp [splitOn]
  | cons c cs ih =>
    have hc : ¬ c = sep := fun hcs => ha (hcs ▸ List.mem_cons_self _ _)
    rw [List.cons_append, splitOn, if_neg hc,
      ih (fun hm => ha (List.mem_cons_of_mem _ hm))]

theorem splitOn_joinNL : ∀ (L : List String), L ≠ [] → (∀ s ∈ L, '\n' ∉ s.data) →
    splitOn '\n' (joinNL L).data = L.map String.data := by
  intro L
  induction L with
  | nil => intro h; exact absurd rfl h
  | cons x rest ih =>
    intro _ hnl
    cases rest with
    | nil =>
      rw [joinNL]
      simp only [List.map_cons, List.map_nil]
      exact splitOn_no_sep '\n' x.data (hnl x (List.mem_cons_self _ _))
    | cons y t =>
      have hjoin : joinNL (x :: y :: t) = x ++ "\n" ++ joinNL (y :: t) := rfl
      rw [hjoin]
      have hdata : (x ++ "\n" ++ joinNL (y :: t)).data
          = x.data ++ '\n' :: (joinNL (y :: t)).data := by
        rw [String.data_append, String.data_append]
        simp
      have hih := ih (List.cons_ne_nil _ _)
        (fun s hs => hnl s (List.mem_cons_of_mem _ hs))
      rw [hdata, splitOn_sep_cons '\n' _ _ (hnl x (List.mem_cons_self _ _)), hih]
      rfl

theorem dropWhile_all_false (p : Char → Bool) (l : List Char)
    (h : ∀ c ∈ l, p c = false) : l.dropWhile p = l := by
  cases l with
  | nil => rfl
  | cons a as => rw [List.dropWhile_cons, if_neg (by simp [h a (List.mem_cons_self _ _)])]

theorem trimChars_eq_self (l : List Char) (h : ∀ c ∈ l, isSpaceChar c = false) :
    trimChars l = l := by
  rw [trimChars, dropWhile_all_false _ _ h,
    dropWhile_all_false _ _ (fun c hc => h c (List.mem_reverse.1 hc)), List.reverse_reverse]

theorem isDig_ne {c d : Char} (h : isDig c = true) (hd : isDig d = false) : c ≠ d := by
  intro hcd
  rw [hcd, hd] at h
  exact Bool.false_ne_true h

theorem isDig_not_space {c : Char} (h : isDig c = true) : isSpaceChar c = false := by
  have h1 := isDig_ne h (d := ' ') (by decide)
  have h2 := isDig_ne h (d := Char.ofNat 9) (by decide)
  have h3 := isDig_ne h (d := Char.ofNat 10) (by decide)
  have h4 := isDig_ne h (d := Char.ofNat 13) (by decide)
  have h5 := isDig_ne h (d := Char.ofNat 11) (by decide)
  have h6 := isDig_ne h (d := Char.ofNat 12) (by decide)
  simp [isSpaceChar, h1, h2, h3, h4, h5, h6]

theorem digitChar_digToNat {c : Char} (h : isDig c = true) : digitChar (digToNat c) = c := by
  simp only [isDig, decide_eq_true_eq] at h
  rw [digitChar, digToNat]
  have heq : 48 + (c.toNat - 48) = c.toNat := by omega
  rw [heq, Char.ofNat_toNat]

theorem char_eq_of_toNat {c : Char} {n : Nat} (h : c.toNat = n) : c = Char.ofNat n := by
  rw [← h, Char.ofNat_toNat]

theorem natCharsGo_eq_natChars : ∀ n fuel, n ≤ fuel → natCharsGo fuel n = natChars n := by
  intro n
  induction n using Nat.strong_induction_on with
  | _ n ih =>
    intro fuel hf
    by_cases h10 : n < 10
    · rw [natCharsGo_small fuel h10, natChars, natCharsGo_small n h10]
    · obtain ⟨f, rfl⟩ : ∃ f, fuel = f + 1 := ⟨fuel - 1, by omega⟩
      obtain ⟨g, hg⟩ : ∃ g, n = g + 1 := ⟨n - 1, by omega⟩
      have hstep1 : natCharsGo (f + 1) n = natCharsGo f (n / 10) ++ [digitChar (n % 10)] := by
        rw [natCharsGo, if_neg h10]
      have hstep2 : natChars n = natCharsGo g (n / 10) ++ [digitChar (n % 10)] := by
        rw [natChars, hg, natCharsGo, if_neg (hg ▸ h10)]
      rw [hstep1, hstep2, ih (n / 10) (by omega) f (by omega), ih (n / 10) (by omega) g (by omega)]

theorem natChars_append_digit {a b : Nat} (ha : 1 ≤ a) (hb : b < 10) :
    natChars (10 * a + b) = natChars a ++ [digitChar b] := by
  have h10 : ¬ 10 * a + b < 10 := by omega
  obtain ⟨f, hf⟩ : ∃ f, 10 * a + b = f + 1 := ⟨10 * a + b - 1, by omega⟩
  have hdiv : (10 * a + b) / 10 = a := by omega
  have hmod : (10 * a + b) % 10 = b := by omega
  have hstep : natChars (10 * a + b) = natCharsGo f ((10 * a + b) / 10)
      ++ [digitChar ((10 * a + b) % 10)] := by
    rw [natChars]
    conv_lhs => rw [hf]
    rw [natCharsGo, if_neg (hf ▸ h10), ← hf]
  rw [hstep, hdiv, hmod, natCharsGo_eq_natChars a f (by omega)]

theorem digitsToNat_cons (h : Char) (t : List Char) :
    digitsToNat (h :: t) = digToNat h * 10 ^ t.length + digitsToNat t := by
  rw [digitsToNat, List.foldl_cons, digitsToNat_foldl]
  norm_num

theorem digitsToNat_head_pos {h : Char} {t : List Char} (hh : isDig h = true)
    (h0 : h ≠ '0') : 1 ≤ digitsToNat (h :: t) := by
  have hd : 1 ≤ digToNat h := by
    simp only [isDig, decide_eq_true_eq] at hh
    rw [digToNat]
    rcases Nat.lt_or_ge 48 h.toNat with hlt | hge
    · omega
    · exact absurd (char_eq_of_toNat (by omega : h.toNat = 48)) h0
  rw [digitsToNat_cons]
  have hp : 1 ≤ 10 ^ t.length := Nat.one_le_two_pow.trans
    (Nat.pow_le_pow_left (by omega) _)
  calc 1 = 1 * 1 := by omega
  _ ≤ digToNat h * 10 ^ t.length := Nat.mul_le_mul hd hp
  _ ≤ _ := by omega

theorem natChars_of_digits : ∀ ds : List Char, (∀ c ∈ ds, isDig c = true) →
    (∀ h t, ds = h :: t → t ≠ [] → h ≠ '0') → ds ≠ [] →
    natChars (digitsToNat ds) = ds := by
  intro ds
  induction ds using List.reverseRecOn with
  | nil => intro _ _ h; exact absurd rfl h
  | append_singleton init c ih =>
    intro hdig hlead _
    cases hinit : init with
    | nil =>
      subst hinit
      have hc : isDig c = true := hdig c (by simp)
      have hlt : digToNat c < 10 := digToNat_lt hc
      have : digitsToNat [c] = digToNat c := by
        simp [digitsToNat_cons, digitsToNat]
      rw [List.nil_append, this, natChars, natCharsGo_small _ hlt, digitChar_digToNat hc]
    | cons h0 t0 =>
      subst hinit
      have hc : isDig c = true := hdig c (by simp)
      have hd0 : isDig h0 = true := hdig h0 (by simp)
      have hne0 : h0 ≠ '0' := hlead h0 (t0 ++ [c]) rfl (by simp)
      have hpos : 1 ≤ digitsToNat (h0 :: t0) := digitsToNat_head_pos hd0 hne0
      rw [digitsToNat_append_singleton, natChars_append_digit hpos (digToNat_lt hc),
        digitChar_digToNat hc]
      have hih : natChars (digitsToNat (h0 :: t0)) = h0 :: t0 := by
        refine ih ?_ ?_ (by simp)
        · intro x hx
          exact hdig x (List.mem_append.2 (Or.inl hx))
        · intro h t hht _
          obtain ⟨hh, _⟩ := List.cons.injEq _ _ _ _ ▸ hht
          exact hh ▸ hne0
      rw [hih]

theorem natCharsGo_ne_nil (fuel n : Nat) : natCharsGo fuel n ≠ [] := by
  cases fuel with
  | zero => simp [natCharsGo]
  | succ f =>
    rw [natCharsGo]
    split
    · simp
    · simp

theorem natChars_ne_nil (n : Nat) : natChars n ≠ [] := natCharsGo_ne_nil n n

theorem natChars_head_ne_zero : ∀ n, 1 ≤ n → ∀ h t, natChars n = h :: t → h ≠ '0' := by
  intro n
  induction n using Nat.strong_induction_on with
  | _ n ih =>
    intro hn h t heq
    by_cases h10 : n < 10
    · rw [natChars, natCharsGo_small n h10] at heq
      obtain ⟨hh, _⟩ := List.cons.injEq _ _ _ _ ▸ heq
      intro hc
      have hv : digToNat h = n := hh ▸ digToNat_digitChar h10
      rw [hc] at hv
      have h0 : digToNat '0' = 0 := by decide
      rw [h0] at hv
      omega
    · have hn' : 10 * (n / 10) + n % 10 = n := by omega
      have hsplit : natChars n = natChars (n / 10) ++ [digitChar (n % 10)] := by
        have hb := natChars_append_digit (a := n / 10) (b := n % 10) (by omega) (by omega)
        rw [hn'] at hb
        exact hb
      rw [hsplit] at heq
      cases hh : natChars (n / 10) with
      | nil => exact absurd hh (natChars_ne_nil _)
      | cons h2 t2 =>
        rw [hh, List.cons_append] at heq
        obtain ⟨hh2, _⟩ := List.cons.injEq _ _ _ _ ▸ heq
        exact hh2 ▸ ih (n / 10) (by omega) (by omega) h2 t2 hh

theorem natChars_zero_head {n : Nat} {rest : List Char} (h : natChars n = '0' :: rest) :
    rest = [] := by
  rcases Nat.eq_zero_or_pos n with h0 | hpos
  · subst h0
    have h1 : natChars 0 = ['0'] := by decide
    rw [h1] at h
    exact ((List.cons.injEq _ _ _ _ ▸ h).2).symm
  · exact absurd rfl (natChars_head_ne_zero n hpos '0' rest h)

theorem digitsToNat_cons0 (t : List Char) : digitsToNat ('0' :: t) = digitsToNat t := rfl

theorem digitsToNat_replicate0 : ∀ (j : Nat) (l : List Char),
    digitsToNat (List.replicate j '0' ++ l) = digitsToNat l := by
  intro j
  induction j with
  | zero => intro l; rfl
  | succ j ih =>
    intro l
    rw [List.replicate_succ, List.cons_append, digitsToNat_cons0, ih]

theorem digitsToNat_lt_pow {l : List Char} (h : ∀ c ∈ l, isDig c = true) :
    digitsToNat l < 10 ^ l.length := by
  induction l with
  | nil => simp [digitsToNat]
  | cons c t ih =>
    rw [digitsToNat_cons, List.length_cons]
    have hc : digToNat c < 10 := digToNat_lt (h c (List.mem_cons_self _ _))
    have ht := ih (fun x hx => h x (List.mem_cons_of_mem _ hx))
    have hle : digToNat c * 10 ^ t.length ≤ 9 * 10 ^ t.length :=
      Nat.mul_le_mul_right _ (by omega)
    have hpow : 10 ^ (t.length + 1) = 10 * 10 ^ t.length := by ring
    omega

theorem natChars_length_le : ∀ n k, 1 ≤ k → n < 10 ^ k → (natChars n).length ≤ k := by
  intro n
  induction n using Nat.strong_induction_on with
  | _ n ih =>
    intro k hk hlt
    by_cases h10 : n < 10
    · rw [natChars, natCharsGo_small n h10]
      simpa using hk
    · have hk2 : 2 ≤ k := by
        by_contra hcon
        have hk1 : k = 1 := by omega
        rw [hk1] at hlt
        norm_num at hlt
        omega
      have hn' : 10 * (n / 10) + n % 10 = n := by omega
      have hsplit : natChars n = natChars (n / 10) ++ [digitChar (n % 10)] := by
        have hb := natChars_append_digit (a := n / 10) (b := n % 10) (by omega) (by omega)
        rw [hn'] at hb
        exact hb
      have hdiv : n / 10 < 10 ^ (k - 1) := by
        have h2 : 10 ^ k = 10 ^ (k - 1) * 10 := by
          rw [← pow_succ]
          congr 1
          omega
        omega
      have hrec := ih (n / 10) (by omega) (k - 1) (by omega) hdiv
      rw [hsplit, List.length_append]
      simp only [List.length_cons, List.length_nil]
      omega

theorem padZeros_digits {k m : Nat} {c : Char} (hc : c ∈ padZeros k m) : isDig c = true := by
  rw [padZeros] at hc
  rcases List.mem_append.1 hc with h | h
  · rw [List.eq_of_mem_replicate h]
    decide
  · exact natChars_digits h

theorem padZeros_length {k m : Nat} (hk : 1 ≤ k) (hm : m < 10 ^ k) :
    (padZeros k m).length = k := by
  rw [padZeros, List.length_append, List.length_replicate]
  have := natChars_length_le m k hk hm
  omega

theorem digitsToNat_padZeros (k m : Nat) : digitsToNat (padZeros k m) = m := by
  rw [padZeros, digitsToNat_replicate0, digitsToNat_natChars]

theorem digit_enum {h : Char} (hh : isDig h = true) :
    h = '0' ∨ h = '1' ∨ h = '2' ∨ h = '3' ∨ h = '4' ∨ h = '5' ∨ h = '6' ∨ h = '7' ∨
      h = '8' ∨ h = '9' := by
  simp only [isDig, decide_eq_true_eq] at hh
  have h10 : h.toNat = 48 ∨ h.toNat = 49 ∨ h.toNat = 50 ∨ h.toNat = 51 ∨ h.toNat = 52 ∨
      h.toNat = 53 ∨ h.toNat = 54 ∨ h.toNat = 55 ∨ h.toNat = 56 ∨ h.toNat = 57 := by omega
  rcases h10 with q|q|q|q|q|q|q|q|q|q <;> rw [char_eq_of_toNat q] <;> decide

theorem decLitParse_digit_head {h : Char} (hh : isDig h = true) (r : List Char) :
    decLitParse (h :: r) = decLitParse ('+' :: h :: r) := by
  rcases digit_enum hh with rfl|rfl|rfl|rfl|rfl|rfl|rfl|rfl|rfl|rfl <;> rfl

theorem decLitParse_frac (neg : Bool) (ipd fpd : List Char)
    (hip : ∀ c ∈ ipd, isDig c = true) (hfp : ∀ c ∈ fpd, isDig c = true) (hne : ipd ≠ []) :
    decLitParse ((if neg then ['-'] else []) ++ (ipd ++ '.' :: fpd)) =
      some ⟨neg, ipd, fpd, 0⟩ := by
  have hfsp : fpd.span isDig = (fpd, []) := span_all_sat _ _ hfp
  cases neg with
  | true =>
    have hsp : (ipd ++ '.' :: fpd).span isDig = (ipd, '.' :: fpd) :=
      span_sat_prefix _ _ _ _ hip (by decide)
    simp only [if_true, List.cons_append, List.nil_append, List.singleton_append]
    simp only [decLitParse, hsp, hfsp]
    simp [hne, expParse]
  | false =>
    cases ipd with
    | nil => exact absurd rfl hne
    | cons h tl =>
      have hh : isDig h = true := hip h (List.mem_cons_self _ _)
      have hsp : (h :: (tl ++ '.' :: fpd)).span isDig = (h :: tl, '.' :: fpd) := by
        have := span_sat_prefix isDig (h :: tl) '.' fpd hip (by decide)
        simpa using this
      simp only [List.cons_append]
      rw [if_neg (show ¬(false = true) by decide), List.nil_append]
      rw [decLitParse_digit_head hh]
      simp only [decLitParse, hsp, hfsp]
      simp [expParse]

theorem decLitParse_int (neg : Bool) (ipd : List Char)
    (hip : ∀ c ∈ ipd, isDig c = true) (hne : ipd ≠ []) :
    decLitParse ((if neg then ['-'] else []) ++ ipd) = some ⟨neg, ipd, [], 0⟩ := by
  have hsp : ipd.span isDig = (ipd, []) := span_all_sat _ _ hip
  cases neg with
  | true =>
    rw [if_pos rfl, List.singleton_append]
    simp only [decLitParse, hsp]
    simp [hne, expParse]
  | false =>
    cases ipd with
    | nil => exact absurd rfl hne
    | cons h tl =>
      have hh : isDig h = true := hip h (List.mem_cons_self _ _)
      rw [if_neg (show ¬(false = true) by decide), List.nil_append]
      rw [decLitParse_digit_head hh]
      simp only [decLitParse, hsp]
      simp [expParse]

theorem jsNumber_decimal (t : List Char) (hne : t ≠ [])
    (hsp : ∀ c ∈ t, isSpaceChar c = false)
    (hhead : ∀ h r, t = h :: r → h = '-' ∨ isDig h = true)
    (h0br : ∀ c r, t = '0' :: c :: r → isDig c = true ∨ c = '.') :
    jsNumber (String.mk t) = decLit t := by
  have htr : trimChars t = t := trimChars_eq_self t hsp
  cases t with
  | nil => exact absurd rfl hne
  | cons h r =>
    rcases hhead h r rfl with rfl | hdig
    · simp [jsNumber, htr]
    · rcases digit_enum hdig with rfl|rfl|rfl|rfl|rfl|rfl|rfl|rfl|rfl|rfl
      case inl =>
        cases r with
        | nil => simp [jsNumber, htr]
        | cons c r2 =>
          rcases h0br c r2 rfl with hc | rfl
          · have hx1 : c ≠ 'x' := isDig_ne hc (by decide)
            have hx2 : c ≠ 'X' := isDig_ne hc (by decide)
            have hx3 : c ≠ 'o' := isDig_ne hc (by decide)
            have hx4 : c ≠ 'O' := isDig_ne hc (by decide)
            have hx5 : c ≠ 'b' := isDig_ne hc (by decide)
            have hx6 : c ≠ 'B' := isDig_ne hc (by decide)
            simp [jsNumber, htr, hx1, hx2, hx3, hx4, hx5, hx6]
          · simp [jsNumber, htr]
      all_goals simp [jsNumber, htr]

theorem isDecimalQ_den_dvd {q : ℚ} (hq : isDecimalQ q = true) : q.den ∣ 10 ^ decExp q := by
  simp only [isDecimalQ, decide_eq_true_eq] at hq
  rw [decExp]
  have h10 : (10:ℕ) ^ max (padicCount 2 q.den) (padicCount 5 q.den) =
      2 ^ max (padicCount 2 q.den) (padicCount 5 q.den) *
        5 ^ max (padicCount 2 q.den) (padicCount 5 q.den) := by
    rw [← Nat.mul_pow]
  conv_lhs => rw [hq]
  rw [h10]
  exact mul_dvd_mul (pow_dvd_pow 2 (le_max_left _ _)) (pow_dvd_pow 5 (le_max_right _ _))

theorem jsNumber_num_chars (t : List Char) (hne : t ≠ [])
    (hcls : ∀ c ∈ t, isDig c = true ∨ c = '-' ∨ c = '.')
    (hhead : ∀ h r, t = h :: r → h = '-' ∨ isDig h = true)
    (h0br : ∀ c r, t = '0' :: c :: r → isDig c = true ∨ c = '.') :
    jsNumber (stripCommas (String.mk t)) = decLit t := by
  have hstrip : stripCommas (String.mk t) = String.mk t := by
    rw [stripCommas]
    congr 1
    show t.filter (fun c => c ≠ ',') = t
    apply List.filter_eq_self.2
    intro a ha
    rcases hcls a ha with hd | rfl | rfl
    · exact decide_eq_true (isDig_ne hd (by decide))
    · decide
    · decide
  rw [hstrip]
  refine jsNumber_decimal t hne ?_ hhead h0br
  intro c hc
  rcases hcls c hc with hd | rfl | rfl
  · exact isDig_not_space hd
  · decide
  · decide

theorem jsNumber_printNum {q : ℚ} (hq : isDecimalQ q = true) :
    jsNumber (stripCommas (printNum q)) = some q := by
  have hdenpos : (0:ℚ) < (q.den : ℚ) := by
    exact_mod_cast Nat.pos_of_ne_zero q.den_nz
  have hden0 : ((q.den : ℚ)) ≠ 0 := ne_of_gt hdenpos
  have hq4 : (q.num : ℚ) = q * (q.den : ℚ) := (div_eq_iff hden0).1 (Rat.num_div_den q)
  by_cases hk : decExp q = 0
  · have hden1 : q.den = 1 := by
      have h := isDecimalQ_den_dvd hq
      rw [hk, pow_zero] at h
      exact Nat.dvd_one.1 h
    have hqint : (q.num : ℚ) = q := by
      rw [hq4, hden1]
      norm_num
    have hprint : printNum q = intStr q.num := by
      simp only [printNum]
      rw [if_pos hk]
    rw [hprint, intStr]
    by_cases hneg : q.num < 0
    · rw [if_pos hneg]
      have hd : ("-" ++ decimalStr q.num.natAbs).data = '-' :: natChars q.num.natAbs := by
        rw [String.data_append]
        rfl
      have hdata : ("-" ++ decimalStr q.num.natAbs) = String.mk ('-' :: natChars q.num.natAbs) :=
        congrArg String.mk hd
      rw [hdata]
      have hjn := jsNumber_num_chars ('-' :: natChars q.num.natAbs) (by simp)
        (fun c hc => by
          rcases List.mem_cons.1 hc with rfl | hc2
          · exact Or.inr (Or.inl rfl)
          · exact Or.inl (natChars_digits hc2))
        (fun h r heq => Or.inl ((List.cons.injEq _ _ _ _ ▸ heq).1.symm))
        (fun c r heq => absurd (List.cons.injEq _ _ _ _ ▸ heq).1 (by decide))
      rw [hjn, decLit]
      have hplist : decLitParse ('-' :: natChars q.num.natAbs) =
          some ⟨true, natChars q.num.natAbs, [], 0⟩ := by
        have h := decLitParse_int true (natChars q.num.natAbs)
          (fun c hc => natChars_digits hc) (natChars_ne_nil _)
        simpa using h
      rw [hplist]
      have hna : ((q.num.natAbs : ℚ)) = -q := by
        rw [Int.cast_natAbs, Int.cast_abs, abs_of_neg (show ((q.num : ℚ)) < 0 by
          exact_mod_cast hneg), hqint]
      have hval : numValue ⟨true, natChars q.num.natAbs, [], 0⟩ = q := by
        simp only [numValue]
        rw [digitsToNat_natChars, hna]
        norm_num [digitsToNat]
      rw [Option.map_some', hval]
    · rw [if_neg hneg]
      show jsNumber (stripCommas (String.mk (natChars q.num.natAbs))) = some q
      have hjn := jsNumber_num_chars (natChars q.num.natAbs) (natChars_ne_nil _)
        (fun c hc => Or.inl (natChars_digits hc))
        (fun h r heq => Or.inr (natChars_digits (show h ∈ natChars q.num.natAbs by
          rw [heq]; exact List.mem_cons_self _ _)))
        (fun c r heq => absurd (natChars_zero_head heq) (List.cons_ne_nil c r))
      rw [hjn, decLit]
      have hplist : decLitParse (natChars q.num.natAbs) =
          some ⟨false, natChars q.num.natAbs, [], 0⟩ := by
        have h := decLitParse_int false (natChars q.num.natAbs)
          (fun c hc => natChars_digits hc) (natChars_ne_nil _)
        simpa using h
      rw [hplist]
      have hna : ((q.num.natAbs : ℚ)) = q := by
        rw [Int.cast_natAbs, Int.cast_abs, abs_of_nonneg (show (0:ℚ) ≤ (q.num : ℚ) by
          exact_mod_cast not_lt.1 hneg), hqint]
      have hval : numValue ⟨false, natChars q.num.natAbs, [], 0⟩ = q := by
        simp only [numValue]
        rw [digitsToNat_natChars, hna]
        norm_num [digitsToNat]
      rw [Option.map_some', hval]
  · obtain ⟨a, hadef⟩ : ∃ a, a = (q.num * (10:ℤ) ^ decExp q / (q.den : ℤ)).natAbs := ⟨_, rfl⟩
    have hk1 : 1 ≤ decExp q := Nat.one_le_iff_ne_zero.2 hk
    have hdvd : (q.den : ℤ) ∣ q.num * (10:ℤ) ^ decExp q := by
      have h1 : (q.den : ℤ) ∣ (10:ℤ) ^ decExp q := by
        have h2 := isDecimalQ_den_dvd hq
        exact_mod_cast h2
      exact h1.mul_left q.num
    have hN : (q.num * (10:ℤ) ^ decExp q / (q.den : ℤ)) * (q.den : ℤ) =
        q.num * (10:ℤ) ^ decExp q := Int.ediv_mul_cancel hdvd
    have hNcast : ((q.num * (10:ℤ) ^ decExp q / (q.den : ℤ) : ℤ) : ℚ) =
        q * (10:ℚ) ^ decExp q := by
      have h2 : ((q.num * (10:ℤ) ^ decExp q / (q.den : ℤ) : ℤ) : ℚ) * (q.den : ℚ) =
          (q.num : ℚ) * (10:ℚ) ^ decExp q := by
        exact_mod_cast congrArg (fun z : ℤ => (z : ℚ)) hN
      apply mul_right_cancel₀ hden0
      rw [h2, hq4]
      ring
    have hacast : ((a : ℚ)) = |q| * (10:ℚ) ^ decExp q := by
      rw [hadef, Int.cast_natAbs, Int.cast_abs, hNcast, abs_mul,
        abs_of_pos (show (0:ℚ) < (10:ℚ) ^ decExp q by positivity)]
    have hmodlt : a % 10 ^ decExp q < 10 ^ decExp q :=
      Nat.mod_lt _ (pow_pos (by norm_num) _)
    have h10 : ((10:ℚ)) ^ decExp q ≠ 0 := by positivity
    have hsum : ((a / 10 ^ decExp q : ℕ) : ℚ) + ((a % 10 ^ decExp q : ℕ) : ℚ) /
        (10:ℚ) ^ decExp q = (a : ℚ) / (10:ℚ) ^ decExp q := by
      rw [eq_div_iff h10, add_mul, div_mul_cancel₀ _ h10]
      have h3 := Nat.div_add_mod a (10 ^ decExp q)
      rw [mul_comm] at h3
      exact_mod_cast h3
    have hprint : printNum q = (if q.num < 0 then "-" else "") ++
        decimalStr (a / 10 ^ decExp q) ++ "." ++
        String.mk (padZeros (decExp q) (a % 10 ^ decExp q)) := by
      simp only [printNum]
      rw [if_neg hk, ← hadef]
    rw [hprint]
    have hipch : ∀ c ∈ natChars (a / 10 ^ decExp q), isDig c = true := fun c hc =>
      natChars_digits hc
    have hfpch : ∀ c ∈ padZeros (decExp q) (a % 10 ^ decExp q), isDig c = true := fun c hc =>
      padZeros_digits hc
    by_cases hneg : q.num < 0
    · rw [if_pos hneg]
      have hd : ("-" ++ decimalStr (a / 10 ^ decExp q) ++ "." ++
          String.mk (padZeros (decExp q) (a % 10 ^ decExp q))).data =
          '-' :: (natChars (a / 10 ^ decExp q) ++ '.' ::
            padZeros (decExp q) (a % 10 ^ decExp q)) := by
        simp [String.data_append, decimalStr]
      have hdata : ("-" ++ decimalStr (a / 10 ^ decExp q) ++ "." ++
          String.mk (padZeros (decExp q) (a % 10 ^ decExp q))) =
          String.mk ('-' :: (natChars (a / 10 ^ decExp q) ++ '.' ::
            padZeros (decExp q) (a % 10 ^ decExp q))) := congrArg String.mk hd
      rw [hdata]
      have hjn := jsNumber_num_chars ('-' :: (natChars (a / 10 ^ decExp q) ++ '.' ::
          padZeros (decExp q) (a % 10 ^ decExp q))) (by simp)
        (fun c hc => by
          rcases List.mem_cons.1 hc with rfl | hc2
          · exact Or.inr (Or.inl rfl)
          · rcases List.mem_append.1 hc2 with h3 | h3
            · exact Or.inl (hipch c h3)
            · rcases List.mem_cons.1 h3 with rfl | h4
              · exact Or.inr (Or.inr rfl)
              · exact Or.inl (hfpch c h4))
        (fun h r heq => Or.inl ((List.cons.injEq _ _ _ _ ▸ heq).1.symm))
        (fun c r heq => absurd (List.cons.injEq _ _ _ _ ▸ heq).1 (by decide))
      rw [hjn, decLit]
      have hplist : decLitParse ('-' :: (natChars (a / 10 ^ decExp q) ++ '.' ::
          padZeros (decExp q) (a % 10 ^ decExp q))) =
          some ⟨true, natChars (a / 10 ^ decExp q),
            padZeros (decExp q) (a % 10 ^ decExp q), 0⟩ := by
        have h := decLitParse_frac true (natChars (a / 10 ^ decExp q))
          (padZeros (decExp q) (a % 10 ^ decExp q)) hipch hfpch (natChars_ne_nil _)
        simpa using h
      rw [hplist]
      have hq0 : q < 0 := by
        have hx : (q.num : ℚ) < 0 := by exact_mod_cast hneg
        rw [hq4] at hx
        by_contra hcon
        push_neg at hcon
        exact absurd (mul_nonneg hcon hdenpos.le) (not_le.2 hx)
      have hval : numValue ⟨true, natChars (a / 10 ^ decExp q),
          padZeros (decExp q) (a % 10 ^ decExp q), 0⟩ = q := by
        simp only [numValue]
        rw [digitsToNat_natChars, digitsToNat_padZeros, padZeros_length hk1 hmodlt,
          hsum, hacast, abs_of_neg hq0]
        field_simp
      rw [Option.map_some', hval]
    · rw [if_neg hneg]
      have hd : ("" ++ decimalStr (a / 10 ^ decExp q) ++ "." ++
          String.mk (padZeros (decExp q) (a % 10 ^ decExp q))).data =
          natChars (a / 10 ^ decExp q) ++ '.' ::
            padZeros (decExp q) (a % 10 ^ decExp q) := by
        simp [String.data_append, decimalStr]
      have hdata : ("" ++ decimalStr (a / 10 ^ decExp q) ++ "." ++
          String.mk (padZeros (decExp q) (a % 10 ^ decExp q))) =
          String.mk (natChars (a / 10 ^ decExp q) ++ '.' ::
            padZeros (decExp q) (a % 10 ^ decExp q)) := congrArg String.mk hd
      rw [hdata]
      have hjn := jsNumber_num_chars (natChars (a / 10 ^ decExp q) ++ '.' ::
          padZeros (decExp q) (a % 10 ^ decExp q)) (by simp)
        (fun c hc => by
          rcases List.mem_append.1 hc with h3 | h3
          · exact Or.inl (hipch c h3)
          · rcases List.mem_cons.1 h3 with rfl | h4
            · exact Or.inr (Or.inr rfl)
            · exact Or.inl (hfpch c h4))
        (fun h r heq => by
          cases hni : natChars (a / 10 ^ decExp q) with
          | nil => exact absurd hni (natChars_ne_nil _)
          | cons h2 t2 =>
            rw [hni, List.cons_append] at heq
            obtain ⟨hh2, _⟩ := List.cons.injEq _ _ _ _ ▸ heq
            exact Or.inr (hh2 ▸ natChars_digits
              (hni.symm ▸ List.mem_cons_self h2 t2)))
        (fun c r heq => by
          cases hni : natChars (a / 10 ^ decExp q) with
          | nil => exact absurd hni (natChars_ne_nil _)
          | cons h2 t2 =>
            rw [hni, List.cons_append] at heq
            obtain ⟨hh2, htl⟩ := List.cons.injEq _ _ _ _ ▸ heq
            rw [hh2] at hni
            have ht2 : t2 = [] := natChars_zero_head hni
            rw [ht2, List.nil_append] at htl
            exact Or.inr ((List.cons.injEq _ _ _ _ ▸ htl).1.symm))
      rw [hjn, decLit]
      have hplist : decLitParse (natChars (a / 10 ^ decExp q) ++ '.' ::
          padZeros (decExp q) (a % 10 ^ decExp q)) =
          some ⟨false, natChars (a / 10 ^ decExp q),
            padZeros (decExp q) (a % 10 ^ decExp q), 0⟩ := by
        have h := decLitParse_frac false (natChars (a / 10 ^ decExp q))
          (padZeros (decExp q) (a % 10 ^ decExp q)) hipch hfpch (natChars_ne_nil _)
        simpa using h
      rw [hplist]
      have hq0 : 0 ≤ q := by
        have hx : (0:ℚ) ≤ (q.num : ℚ) := by exact_mod_cast not_lt.1 hneg
        rw [hq4] at hx
        by_contra hcon
        push_neg at hcon
        have := mul_neg_of_neg_of_pos hcon hdenpos
        exact absurd hx (not_le.2 this)
      have hval : numValue ⟨false, natChars (a / 10 ^ decExp q),
          padZeros (decExp q) (a % 10 ^ decExp q), 0⟩ = q := by
        simp only [numValue]
        rw [digitsToNat_natChars, digitsToNat_padZeros, padZeros_length hk1 hmodlt,
          hsum, hacast, abs_of_nonneg hq0]
        field_simp
      rw [Option.map_some', hval]

theorem printNum_chars (q : ℚ) :
    ∀ c ∈ (printNum q).data, isDig c = true ∨ c = '-' ∨ c = '.' := by
  intro c hc
  by_cases hk : decExp q = 0
  · have hprint : printNum q = intStr q.num := by
      simp only [printNum]
      rw [if_pos hk]
    rw [hprint, intStr] at hc
    by_cases hneg : q.num < 0
    · rw [if_pos hneg, String.data_append] at hc
      rcases List.mem_append.1 hc with h | h
      · exact Or.inr (Or.inl (by simpa using h))
      · exact Or.inl (natChars_digits h)
    · rw [if_neg hneg] at hc
      exact Or.inl (natChars_digits hc)
  · obtain ⟨a, hadef⟩ : ∃ a, a = (q.num * (10:ℤ) ^ decExp q / (q.den : ℤ)).natAbs := ⟨_, rfl⟩
    have hprint : printNum q = (if q.num < 0 then "-" else "") ++
        decimalStr (a / 10 ^ decExp q) ++ "." ++
        String.mk (padZeros (decExp q) (a % 10 ^ decExp q)) := by
      simp only [printNum]
      rw [if_neg hk, ← hadef]
    rw [hprint] at hc
    simp only [String.data_append] at hc
    rcases List.mem_append.1 hc with h | h
    · rcases List.mem_append.1 h with h2 | h2
      · rcases List.mem_append.1 h2 with h3 | h3
        · by_cases hneg : q.num < 0
          · rw [if_pos hneg] at h3
            exact Or.inr (Or.inl (by simpa using h3))
          · rw [if_neg hneg] at h3
            simp at h3
        · exact Or.inl (natChars_digits h3)
      · exact Or.inr (Or.inr (by simpa using h2))
    · exact Or.inl (padZeros_digits (by simpa using h))

theorem printNum_char_facts {q : ℚ} {c : Char} (hc : c ∈ (printNum q).data) :
    isSpaceChar c = false ∧ c ≠ '\n' ∧ c ≠ ',' := by
  rcases printNum_chars q c hc with h | rfl | rfl
  · exact ⟨isDig_not_space h, isDig_ne h (by decide), isDig_ne h (by decide)⟩
  · exact ⟨by decide, by decide, by decide⟩
  · exact ⟨by decide, by decide, by decide⟩

theorem pad2_digits_id {m1 m2 : Char} (h1 : isDig m1 = true) (h2 : isDig m2 = true) :
    pad2 (digitsToNat [m1, m2]) = String.mk [m1, m2] := by
  have hlt1 : digToNat m1 < 10 := digToNat_lt h1
  have hlt2 : digToNat m2 < 10 := digToNat_lt h2
  have hval : digitsToNat [m1, m2] = 10 * digToNat m1 + digToNat m2 := by
    rw [digitsToNat_cons, digitsToNat_cons]
    simp [digitsToNat]
    omega
  by_cases h10 : digitsToNat [m1, m2] < 10
  · have hm10 : digToNat m1 = 0 := by omega
    have hm1c : m1 = '0' := by
      have ht : m1.toNat = 48 := by
        simp only [digToNat] at hm10
        simp only [isDig, decide_eq_true_eq] at h1
        omega
      rw [char_eq_of_toNat ht]
    have hn : digitsToNat [m1, m2] = digToNat m2 := by omega
    rw [pad2, if_pos h10]
    have hdec : decimalStr (digitsToNat [m1, m2]) = String.mk [m2] := by
      rw [decimalStr]
      congr 1
      rw [hn, natChars, natCharsGo_small _ hlt2, digitChar_digToNat h2]
    rw [hdec, hm1c]
    have hdd : ("0" ++ String.mk [m2]).data = ['0', m2] := by
      rw [String.data_append]
      rfl
    exact congrArg String.mk hdd
  · rw [pad2, if_neg h10, decimalStr]
    congr 1
    apply natChars_of_digits
    · intro c hc
      rcases List.mem_cons.1 hc with rfl | hc2
      · exact h1
      · rcases List.mem_cons.1 hc2 with rfl | hc3
        · exact h2
        · simp at hc3
    · intro h t hht _
      obtain ⟨hh, _⟩ := List.cons.injEq _ _ _ _ ▸ hht
      intro hc0
      rw [hc0] at hh
      have hz : digToNat m1 = 0 := by
        rw [hh]
        decide
      omega
    · simp

theorem validISOKey_shape {s : String} (hv : validISOKey s = true) :
    ∃ y1 y2 y3 y4 m1 m2 d1 d2,
      s.data = [y1, y2, y3, y4, '-', m1, m2, '-', d1, d2] ∧
      isDig y1 = true ∧ isDig y2 = true ∧ isDig y3 = true ∧ isDig y4 = true ∧
      isDig m1 = true ∧ isDig m2 = true ∧ isDig d1 = true ∧ isDig d2 = true ∧
      shapeISO s.data = some (digitsToNat [y1, y2, y3, y4], digitsToNat [m1, m2],
        digitsToNat [d1, d2]) ∧
      validCivil ((digitsToNat [y1, y2, y3, y4] : ℕ) : ℤ) (digitsToNat [m1, m2])
        (digitsToNat [d1, d2]) = true := by
  simp only [validISOKey, decide_eq_true_eq] at hv
  rw [parseISOKey] at hv
  split at hv
  next y m d heq =>
    split at hv
    next hvc =>
      obtain ⟨y1, y2, y3, y4, m1, m2, d1, d2, hdata, hy1, hy2, hy3, hy4, hm1, hm2, hd1, hd2,
        hYv, hMv, hDv⟩ := shapeISO_inv heq
      refine ⟨y1, y2, y3, y4, m1, m2, d1, d2, hdata, hy1, hy2, hy3, hy4, hm1, hm2, hd1, hd2,
        ?_, ?_⟩
      · rw [heq, hYv, hMv, hDv]
      · rw [← hYv, ← hMv, ← hDv]
        exact hvc
    next => exact absurd hv (by simp)
  next heq => exact absurd hv (by simp)

theorem parse_format_roundtrip {s : String} (hv : validISOKey s = true)
    (hy : 1000 ≤ yearOfKey s) :
    parseInputDate (formatDDMMYYYYForCSV s) = some s ∧
    (∀ c ∈ (formatDDMMYYYYForCSV s).data, isDig c = true ∨ c = '/') := by
  obtain ⟨y1, y2, y3, y4, m1, m2, d1, d2, hdata, hy1, hy2, hy3, hy4, hm1, hm2, hd1, hd2,
    hsh, hvc⟩ := validISOKey_shape hv
  have hfmt : formatDDMMYYYYForCSV s =
      String.mk [d1, d2] ++ "/" ++ String.mk [m1, m2] ++ "/" ++
        String.mk [y1, y2, y3, y4] := by
    simp [formatDDMMYYYYForCSV, hdata, hy1, hy2, hy3, hy4, hm1, hm2, hd1, hd2]
  have hfd : (formatDDMMYYYYForCSV s).data = [d1, d2, '/', m1, m2, '/', y1, y2, y3, y4] := by
    rw [hfmt]
    simp [String.data_append]
  have hya : yearOfKey s = digitsToNat [y1, y2, y3, y4] := by
    rw [yearOfKey, hdata]
    rfl
  rw [hya] at hy
  constructor
  · have htr : trimChars [d1, d2, '/', m1, m2, '/', y1, y2, y3, y4] =
        [d1, d2, '/', m1, m2, '/', y1, y2, y3, y4] := by
      apply trimChars_eq_self
      intro c hc
      simp only [List.mem_cons, List.not_mem_nil, or_false] at hc
      rcases hc with rfl|rfl|rfl|rfl|rfl|rfl|rfl|rfl|rfl|rfl
      · exact isDig_not_space hd1
      · exact isDig_not_space hd2
      · decide
      · exact isDig_not_space hm1
      · exact isDig_not_space hm2
      · decide
      · exact isDig_not_space hy1
      · exact isDig_not_space hy2
      · exact isDig_not_space hy3
      · exact isDig_not_space hy4
    have hshd : shapeDMY '/' [d1, d2, '/', m1, m2, '/', y1, y2, y3, y4] =
        some (digitsToNat [d1, d2], digitsToNat [m1, m2], digitsToNat [y1, y2, y3, y4]) := by
      simp [shapeDMY, hd1, hd2, hm1, hm2, hy1, hy2, hy3, hy4]
    have hok : utcRoundtripOk (digitsToNat [y1, y2, y3, y4]) (digitsToNat [m1, m2])
        (digitsToNat [d1, d2]) = true :=
      utcRoundtripOk_valid (by omega) hvc
    have hy0 : y1 ≠ '0' := by
      intro hcon
      rw [hcon, digitsToNat_cons0] at hy
      have hlt3 := digitsToNat_lt_pow (l := [y2, y3, y4]) (by
        intro c hc
        simp only [List.mem_cons, List.not_mem_nil, or_false] at hc
        rcases hc with rfl|rfl|rfl
        · exact hy2
        · exact hy3
        · exact hy4)
      norm_num at hlt3
      omega
    have hiso : isoOf (digitsToNat [y1, y2, y3, y4]) (digitsToNat [m1, m2])
        (digitsToNat [d1, d2]) = s := by
      rw [isoOf]
      have hys : decimalStr (digitsToNat [y1, y2, y3, y4]) = String.mk [y1, y2, y3, y4] := by
        rw [decimalStr]
        congr 1
        apply natChars_of_digits
        · intro c hc
          simp only [List.mem_cons, List.not_mem_nil, or_false] at hc
          rcases hc with rfl|rfl|rfl|rfl
          · exact hy1
          · exact hy2
          · exact hy3
          · exact hy4
        · intro h t hht _
          obtain ⟨hh, _⟩ := List.cons.injEq _ _ _ _ ▸ hht
          exact hh ▸ hy0
        · simp
      rw [hys, pad2_digits_id hm1 hm2, pad2_digits_id hd1 hd2]
      have hdd : (String.mk [y1, y2, y3, y4] ++ "-" ++ String.mk [m1, m2] ++ "-" ++
          String.mk [d1, d2]).data = s.data := by
        rw [hdata]
        simp [String.data_append]
      exact congrArg String.mk hdd
    simp only [parseInputDate, hfd, htr, hshd, hok, if_true]
    rw [hiso]
  · intro c hc
    rw [hfd] at hc
    simp only [List.mem_cons, List.not_mem_nil, or_false] at hc
    rcases hc with rfl|rfl|rfl|rfl|rfl|rfl|rfl|rfl|rfl|rfl
    · exact Or.inl hd1
    · exact Or.inl hd2
    · exact Or.inr rfl
    · exact Or.inl hm1
    · exact Or.inl hm2
    · exact Or.inr rfl
    · exact Or.inl hy1
    · exact Or.inl hy2
    · exact Or.inl hy3
    · exact Or.inl hy4

theorem processRowsGo_all_valid : ∀ (rows : List (List String)) (i : Nat),
    (∀ r ∈ rows, rowRecord r ≠ none) →
    processRowsGo i rows = (rows.filterMap rowRecord, []) := by
  intro rows
  induction rows with
  | nil => intro i _; rfl
  | cons r rest ih =>
    intro i hall
    cases hrr : rowRecord r with
    | none => exact absurd hrr (hall r (List.mem_cons_self _ _))
    | some v =>
      have he : rowError i r = none := rowError_none_of_record hrr
      have ihe := ih (i + 1) (fun r2 h2 => hall r2 (List.mem_cons_of_mem _ h2))
      simp [processRowsGo, hrr, ihe, List.filterMap_cons]

theorem filterMap_all_some {α : Type} (l : List α) (f : α → Option α)
    (h : ∀ a ∈ l, f a = some a) : l.filterMap f = l := by
  induction l with
  | nil => rfl
  | cons a t ih =>
    simp [List.filterMap_cons, h a (List.mem_cons_self _ _),
      ih (fun x hx => h x (List.mem_cons_of_mem _ hx))]

theorem mapSet_fresh {m : List (String × ℚ)} {k : String} (v : ℚ)
    (h : ∀ p ∈ m, p.1 ≠ k) : mapSet m k v = m ++ [(k, v)] := by
  rw [mapSet, if_neg]
  intro hcon
  simp only [List.any_eq_true, decide_eq_true_eq] at hcon
  obtain ⟨p, hp, hpk⟩ := hcon
  exact h p hp hpk

theorem mergeRecords_append_fresh : ∀ (l acc : List (String × ℚ)),
    (l.map Prod.fst).Nodup → (∀ p ∈ l, ∀ q2 ∈ acc, q2.1 ≠ p.1) →
    mergeRecords acc l = acc ++ l := by
  intro l
  induction l with
  | nil =>
    intro acc _ _
    simp [mergeRecords]
  | cons p rest ih =>
    intro acc hnd hfr
    simp only [List.map_cons, List.nodup_cons] at hnd
    obtain ⟨hnotin, htl⟩ := hnd
    have hstep : mergeRecords acc (p :: rest) =
        mergeRecords (mapSet acc p.1 p.2) rest := by
      rw [mergeRecords, List.foldl_cons, mergeRecords]
    rw [hstep, mapSet_fresh p.2 (fun q2 hq2 => hfr p (List.mem_cons_self _ _) q2 hq2)]
    have hih := ih (acc ++ [(p.1, p.2)]) htl (by
      intro r hr q2 hq2
      rcases List.mem_append.1 hq2 with h2 | h2
      · exact hfr r (List.mem_cons_of_mem _ hr) q2 h2
      · have hq2e : q2 = (p.1, p.2) := by simpa using h2
        rw [hq2e]
        intro hcon
        exact hnotin (hcon ▸ List.mem_map_of_mem Prod.fst hr))
    rw [hih, List.append_assoc]
    rfl

theorem mergeRecords_nil_eq {l : List (String × ℚ)} (h : (l.map Prod.fst).Nodup) :
    mergeRecords [] l = l := by
  have hh := mergeRecords_append_fresh l [] h (by intro p hp q2 hq2; simp at hq2)
  simpa using hh

theorem lookupRec_eq_none_iff {m : List (String × ℚ)} {k : String} :
    lookupRec m k = none ↔ ∀ p ∈ m, p.1 ≠ k := by
  rw [lookupRec]
  constructor
  · intro h p hp hpk
    cases hf : m.find? (fun p => p.1 = k) with
    | none =>
      rw [List.find?_eq_none] at hf
      exact hf p hp (by simpa using hpk)
    | some p2 =>
      rw [hf] at h
      simp at h
  · intro h
    cases hf : m.find? (fun p => p.1 = k) with
    | none => rfl
    | some p2 =>
      have hp2 := List.mem_of_find?_eq_some hf
      have hpk : p2.1 = k := by simpa using List.find?_some hf
      exact absurd hpk (h p2 hp2)

theorem lookupRec_mem {m : List (String × ℚ)} {k : String} {v : ℚ}
    (h : lookupRec m k = some v) : (k, v) ∈ m := by
  rw [lookupRec] at h
  cases hf : m.find? (fun p => p.1 = k) with
  | none =>
    rw [hf] at h
    simp at h
  | some p2 =>
    rw [hf] at h
    simp only [Option.map_some'] at h
    have hp2 := List.mem_of_find?_eq_some hf
    have hpk : p2.1 = k := by simpa using List.find?_some hf
    rw [Option.some.injEq] at h
    have hpe : p2 = (k, v) := by
      obtain ⟨x, y⟩ := p2
      simp only at hpk h
      rw [hpk, h]
    rw [← hpe]
    exact hp2

theorem key_unique : ∀ {m : List (String × ℚ)} {k : String} {v w : ℚ},
    (m.map Prod.fst).Nodup → (k, v) ∈ m → (k, w) ∈ m → v = w := by
  intro m
  induction m with
  | nil =>
    intro k v w _ hv hw
    simp at hv
  | cons p rest ih =>
    intro k v w hnd hv hw
    simp only [List.map_cons, List.nodup_cons] at hnd
    obtain ⟨hnotin, htl⟩ := hnd
    rcases List.mem_cons.1 hv with heqv | hv2
    · rcases List.mem_cons.1 hw with heqw | hw2
      · rw [← heqv] at heqw
        exact ((Prod.mk.injEq _ _ _ _ ▸ heqw).2).symm
      · have hnot2 : k ∉ rest.map Prod.fst := by
          rw [← heqv] at hnotin
          exact hnotin
        exact absurd (show k ∈ rest.map Prod.fst from List.mem_map_of_mem Prod.fst hw2) hnot2
    · rcases List.mem_cons.1 hw with heqw | hw2
      · have hnot2 : k ∉ rest.map Prod.fst := by
          rw [← heqw] at hnotin
          exact hnotin
        exact absurd (show k ∈ rest.map Prod.fst from List.mem_map_of_mem Prod.fst hv2) hnot2
      · exact ih htl hv2 hw2

theorem lookupRec_of_mem {m : List (String × ℚ)} {k : String} {v : ℚ}
    (hnd : (m.map Prod.fst).Nodup) (h : (k, v) ∈ m) : lookupRec m k = some v := by
  cases hl : lookupRec m k with
  | none =>
    rw [lookupRec_eq_none_iff] at hl
    exact absurd rfl (hl (k, v) h)
  | some w =>
    rw [key_unique hnd (lookupRec_mem hl) h]

theorem lookupRec_perm {m m2 : List (String × ℚ)} (hp : List.Perm m m2)
    (hnd : (m2.map Prod.fst).Nodup) (k : String) : lookupRec m k = lookupRec m2 k := by
  have hnd1 : (m.map Prod.fst).Nodup := ((hp.map Prod.fst).nodup_iff).2 hnd
  cases hl : lookupRec m2 k with
  | none =>
    rw [lookupRec_eq_none_iff] at hl
    exact lookupRec_eq_none_iff.2 (fun p hp2 => hl p (hp.subset hp2))
  | some v =>
    exact lookupRec_of_mem hnd1 (hp.mem_iff.2 (lookupRec_mem hl))

theorem csvRows_export (m : List (String × ℚ))
    (hk : ∀ p ∈ m, validISOKey p.1 = true ∧ 1000 ≤ yearOfKey p.1 ∧ isDecimalQ p.2 = true) :
    csvRows (exportDailyCSVText m) =
      (dailySorted m).map (fun p => [formatDDMMYYYYForCSV p.1, printNum p.2]) := by
  have hmem : ∀ p ∈ dailySorted m, validISOKey p.1 = true ∧ 1000 ≤ yearOfKey p.1 ∧
      isDecimalQ p.2 = true := fun p hp => hk p ((List.mergeSort_perm m _).subset hp)
  have hfch : ∀ p ∈ dailySorted m, ∀ c ∈ (formatDDMMYYYYForCSV p.1).data,
      isDig c = true ∨ c = '/' := fun p hp =>
    (parse_format_roundtrip (hmem p hp).1 (hmem p hp).2.1).2
  have hlined : ∀ p : String × ℚ, (formatDDMMYYYYForCSV p.1 ++ "," ++ printNum p.2).data =
      (formatDDMMYYYYForCSV p.1).data ++ ',' :: (printNum p.2).data := by
    intro p
    simp [String.data_append]
  have hnosp : ∀ p ∈ dailySorted m,
      ∀ c ∈ (formatDDMMYYYYForCSV p.1 ++ "," ++ printNum p.2).data,
      isSpaceChar c = false ∧ c ≠ '\n' := by
    intro p hp c hc
    rw [hlined p] at hc
    rcases List.mem_append.1 hc with h | h
    · rcases hfch p hp c h with hd | rfl
      · exact ⟨isDig_not_space hd, isDig_ne hd (by decide)⟩
      · exact ⟨by decide, by decide⟩
    · rcases List.mem_cons.1 h with rfl | h2
      · exact ⟨by decide, by decide⟩
      · exact ⟨(printNum_char_facts h2).1, (printNum_char_facts h2).2.1⟩
  have hsj := splitOn_joinNL (("date," ++ DAILY_VALUE_COL) ::
      (dailySorted m).map (fun d => formatDDMMYYYYForCSV d.1 ++ "," ++ printNum d.2))
    (List.cons_ne_nil _ _)
    (by
      intro s hs
      rcases List.mem_cons.1 hs with rfl | hs2
      · decide
      · obtain ⟨p, hp, rfl⟩ := List.mem_map.1 hs2
        intro hm2
        exact absurd rfl ((hnosp p hp _ hm2).2))
  rw [csvRows, csvRowsAll, exportDailyCSVText, hsj]
  rw [List.map_cons, List.map_map, List.map_cons]
  have htrh : trimChars ("date," ++ DAILY_VALUE_COL).data =
      ("date," ++ DAILY_VALUE_COL).data := by decide
  rw [htrh, List.map_map]
  have htrl : List.map (trimChars ∘ (String.data ∘
      fun d : String × ℚ => formatDDMMYYYYForCSV d.1 ++ "," ++ printNum d.2)) (dailySorted m) =
      List.map (fun d : String × ℚ =>
        (formatDDMMYYYYForCSV d.1 ++ "," ++ printNum d.2).data) (dailySorted m) :=
    List.map_congr_left (fun p hp =>
      trimChars_eq_self _ (fun c hc => (hnosp p hp c hc).1))
  rw [htrl]
  have hfil1 : List.filter (fun l => l ≠ [])
      (("date," ++ DAILY_VALUE_COL).data ::
        List.map (fun d : String × ℚ =>
          (formatDDMMYYYYForCSV d.1 ++ "," ++ printNum d.2).data) (dailySorted m)) =
      ("date," ++ DAILY_VALUE_COL).data ::
        List.map (fun d : String × ℚ =>
          (formatDDMMYYYYForCSV d.1 ++ "," ++ printNum d.2).data) (dailySorted m) := by
    apply List.filter_eq_self.2
    intro l hl
    rcases List.mem_cons.1 hl with rfl | hl2
    · decide
    · obtain ⟨p, hp, rfl⟩ := List.mem_map.1 hl2
      rw [hlined p]
      simp
  rw [hfil1, List.map_cons, List.map_map]
  have hch : csvCells ("date," ++ DAILY_VALUE_COL).data = ["date", "RatedCapacity_GW"] := by
    decide
  rw [hch]
  have hcells : List.map (csvCells ∘ (fun d : String × ℚ =>
      (formatDDMMYYYYForCSV d.1 ++ "," ++ printNum d.2).data)) (dailySorted m) =
      List.map (fun d : String × ℚ =>
        [formatDDMMYYYYForCSV d.1, printNum d.2]) (dailySorted m) := by
    apply List.map_congr_left
    intro p hp
    show csvCells ((formatDDMMYYYYForCSV p.1 ++ "," ++ printNum p.2).data) =
      [formatDDMMYYYYForCSV p.1, printNum p.2]
    rw [csvCells, hlined p]
    have hnoc1 : ',' ∉ (formatDDMMYYYYForCSV p.1).data := by
      intro hm2
      rcases hfch p hp ',' hm2 with hd | heq
      · exact absurd hd (by decide)
      · exact absurd heq (by decide)
    have hnoc2 : ',' ∉ (printNum p.2).data := fun hm2 =>
      absurd rfl (printNum_char_facts hm2).2.2
    rw [splitOn_sep_cons ',' _ _ hnoc1, splitOn_no_sep ',' _ hnoc2]
    simp only [List.map_cons, List.map_nil]
    rw [trimChars_eq_self ((formatDDMMYYYYForCSV p.1).data) (fun c hc => by
        rcases hfch p hp c hc with hd | rfl
        · exact isDig_not_space hd
        · decide),
      trimChars_eq_self ((printNum p.2).data) (fun c hc => (printNum_char_facts hc).1)]
  rw [hcells]
  have hfil2 : List.filter (fun cols => 2 ≤ cols.length)
      (["date", "RatedCapacity_GW"] ::
        List.map (fun d : String × ℚ =>
          [formatDDMMYYYYForCSV d.1, printNum d.2]) (dailySorted m)) =
      ["date", "RatedCapacity_GW"] ::
        List.map (fun d : String × ℚ =>
          [formatDDMMYYYYForCSV d.1, printNum d.2]) (dailySorted m) := by
    apply List.filter_eq_self.2
    intro l hl
    rcases List.mem_cons.1 hl with rfl | hl2
    · decide
    · obtain ⟨p, hp, rfl⟩ := List.mem_map.1 hl2
      simp
  rw [hfil2, dropHeader]
  rw [if_pos (by decide : containsChars (toLowerChars
    ((["date", "RatedCapacity_GW"] : List String).headD "").data) "date".data = true)]

/-- Claim C7 (amended): for a daily-record map whose keys are valid ISO
dates with four-digit years `1000-01-01` or later (ISO keys the export/import
cycle can represent; years below 1000 re-parse through `Date.UTC` either as
`19xx` or as an unpadded shorter key) and whose values have terminating
decimal expansions (as every finite double displayed by JS does), exporting
to CSV and re-importing with `csvParseDaily`, then merging into an empty
map, reproduces the records exactly: the parse is the date-sorted record
list with no errors, and every key looks up to its original value. -/
theorem c7_export_import_roundtrip (m : List (String × ℚ))
    (hk : ∀ p ∈ m, validISOKey p.1 = true ∧ 1000 ≤ yearOfKey p.1 ∧ isDecimalQ p.2 = true)
    (hnd : (m.map Prod.fst).Nodup) :
    (csvParseDaily (exportDailyCSVText m)).1 = dailySorted m ∧
    (csvParseDaily (exportDailyCSVText m)).2 = [] ∧
    ∀ k2, lookupRec (mergeRecords [] (csvParseDaily (exportDailyCSVText m)).1) k2 =
      lookupRec m k2 := by
  have hmem : ∀ p ∈ dailySorted m, validISOKey p.1 = true ∧ 1000 ≤ yearOfKey p.1 ∧
      isDecimalQ p.2 = true := fun p hp => hk p ((List.mergeSort_perm m _).subset hp)
  have hrows := csvRows_export m hk
  have hrec : ∀ p ∈ dailySorted m,
      rowRecord [formatDDMMYYYYForCSV p.1, printNum p.2] = some p := by
    intro p hp
    have hpd := (parse_format_roundtrip (hmem p hp).1 (hmem p hp).2.1).1
    have hpv := jsNumber_printNum (hmem p hp).2.2
    rw [rowRecord]
    simp [hpd, hpv]
  have hall : ∀ r ∈ (dailySorted m).map (fun p => [formatDDMMYYYYForCSV p.1, printNum p.2]),
      rowRecord r ≠ none := by
    intro r hr
    obtain ⟨p, hp, rfl⟩ := List.mem_map.1 hr
    rw [hrec p hp]
    simp
  have hcsv : csvParseDaily (exportDailyCSVText m) =
      (((dailySorted m).map
        (fun p => [formatDDMMYYYYForCSV p.1, printNum p.2])).filterMap rowRecord, []) := by
    rw [csvParseDaily, hrows]
    exact processRowsGo_all_valid _ 0 hall
  have hfm : ((dailySorted m).map
      (fun p => [formatDDMMYYYYForCSV p.1, printNum p.2])).filterMap rowRecord =
      dailySorted m := by
    rw [List.filterMap_map]
    exact filterMap_all_some _ _ (fun p hp => hrec p hp)
  have hnds : ((dailySorted m).map Prod.fst).Nodup := by
    have hperm := (List.mergeSort_perm m (fun a b => strLe a.1 b.1)).map Prod.fst
    exact (hperm.nodup_iff).2 hnd
  refine ⟨?_, ?_, ?_⟩
  · rw [hcsv]
    exact hfm
  · rw [hcsv]
  · intro k2
    rw [hcsv, hfm]
    show lookupRec (mergeRecords [] (dailySorted m)) k2 = lookupRec m k2
    rw [mergeRecords_nil_eq hnds]
    exact lookupRec_perm (List.mergeSort_perm m _) hnd k2

theorem c7_export_import_counterexample :
    validISOKey "0099-01-02" = true ∧ isDecimalQ (5:ℚ) = true ∧
    lookupRec [("0099-01-02", (5:ℚ))] "0099-01-02" = some 5 ∧
    (csvParseDaily (exportDailyCSVText [("0099-01-02", (5:ℚ))])).1 = [] ∧
    (csvParseDaily (exportDailyCSVText [("0099-01-02", (5:ℚ))])).2 ≠ [] ∧
    lookupRec (mergeRecords []
      (csvParseDaily (exportDailyCSVText [("0099-01-02", (5:ℚ))])).1) "0099-01-02" = none := by
  have hps : dailySorted [("0099-01-02", (5:ℚ))] = [("0099-01-02", (5:ℚ))] := by
    simp [dailySorted, List.mergeSort]
  have hexp : exportDailyCSVText [("0099-01-02", (5:ℚ))] =
      "date,RatedCapacity_GW\n02/01/0099,5" := by
    rw [exportDailyCSVText, hps]
    decide
  refine ⟨by decide, by decide, by decide, ?_, ?_, ?_⟩
  · rw [hexp]
    decide
  · rw [hexp]
    decide
  · rw [hexp]
    decide

theorem c7_export_import_roundtrip_witness :
    (∀ p ∈ [("2025-12-18", (5:ℚ))], validISOKey p.1 = true ∧ 1000 ≤ yearOfKey p.1 ∧
      isDecimalQ p.2 = true) ∧
    (([("2025-12-18", (5:ℚ))].map Prod.fst).Nodup) ∧
    lookupRec (mergeRecords []
      (csvParseDaily (exportDailyCSVText [("2025-12-18", (5:ℚ))])).1) "2025-12-18" = some 5 := by
  have hk : ∀ p ∈ [("2025-12-18", (5:ℚ))], validISOKey p.1 = true ∧ 1000 ≤ yearOfKey p.1 ∧
      isDecimalQ p.2 = true := by
    intro p hp
    simp only [List.mem_singleton] at hp
    subst hp
    exact ⟨by decide, by decide, by decide⟩
  have hnd : (([("2025-12-18", (5:ℚ))].map Prod.fst)).Nodup := by simp
  have hmain := (c7_export_import_roundtrip _ hk hnd).2.2 "2025-12-18"
  refine ⟨hk, hnd, ?_⟩
  rw [hmain]
  decide
